import Mathlib

/-!
Verification development for the OWSaveExplorer save editor.

The definitions below are a shallow embedding of the Python sources:
  - `src/OWSaveExplorer/util.py` (class `Tristate`)
  - `src/OWSaveExplorer/enums.py` (the enumeration code sets)
  - `src/OWSaveExplorer/gamesave.py` (`GameSave.__init__`, `GameSave.from_json`,
    `GameSave.to_json`, `ShipLogFactSave`)
  - `src/OWSaveExplorer/widgets/gamesave.py` (`GameSaveTree.submit_edit`,
    `GameSaveTree.action_set_log_state`, `GameSaveTree.action_sort`,
    `GameSaveTree.set_gamesave`)

Python exceptions are modelled with `Except`; `dict`s are modelled as
association lists in insertion order (or positional lists where the key set is
the fixed range `0..n-1`); JSON numbers are modelled as `Int`/`Rat`.
-/

namespace OW

/-- Error class of a raised Python exception: `TypeError` (from
`Tristate.__bool__`) or `ValueError` (raised by `Tristate.__init__`, by
`IntEnum` conversion such as `DeathTypeEnum(x)` / `SignalEnum(x)` /
`FrequencyEnum(x)`, corresponding to the spec error classes
`InvalidValueError` / `InvalidEnumValueError`). -/
inductive PyErr where
  | typeError : PyErr
  | valueError : PyErr
deriving DecidableEq, Repr

deriving instance DecidableEq for Except

/-- Embedding of class `Tristate` from `src/OWSaveExplorer/util.py`: a wrapper
around a value that is `True`, `False` or `None` (any other constructor input
raises `ValueError`, which the `Option Bool` type makes unrepresentable). -/
structure Tristate where
  value : Option Bool
deriving DecidableEq, Repr

/-- Embedding of `Tristate.__bool__` (`src/OWSaveExplorer/util.py` lines 35-36):
it unconditionally raises `TypeError` regardless of the stored state. -/
def Tristate.toBool (_t : Tristate) : Except PyErr Bool :=
  .error .typeError

/-- The integer codes of `SignalEnum` (`src/OWSaveExplorer/enums.py`), in
definition order (which is increasing). -/
def signalCodes : List Nat :=
  [10, 11, 12, 13, 14, 15, 16,
   20, 21, 22, 23, 24, 25,
   30, 31, 32,
   40, 41, 42, 43, 44, 45, 46, 47, 48, 49,
   60, 61, 62,
   100, 101]

/-- The members of `DeathTypeEnum` (`src/OWSaveExplorer/enums.py`) are the
codes `0..14`; a valid value is a `Fin 15`. -/
abbrev DeathType := Fin 15

/-- Embedding of the conversion `DeathTypeEnum(x)`: succeeds exactly when `x`
is a defined member code, otherwise Python raises `ValueError`. -/
def DeathType.ofInt (x : Int) : Option DeathType :=
  if h : 0 ≤ x ∧ x < 15 then some ⟨x.toNat, by omega⟩ else none

/-- Embedding of the conversion `StartupPopupsFlag(x)` for the flag defined in
`src/OWSaveExplorer/enums.py` (members `0,1,2,4`, so `flag_mask = all_bits = 7`)
under CPython 3.11 `IntFlag` semantics (boundary `KEEP`, `enum.Flag._missing_`):
a non-negative integer is kept unchanged (extra bits such as `8` are kept and do
not raise); a negative integer `x` with `-8 <= x` becomes `x + (all_bits + 1)`;
a negative integer below that range becomes `x + max (all_bits + 1)
(2 ^ bitLength x)`. The result is always non-negative. -/
def popupsNorm (x : Int) : Int :=
  if 0 ≤ x then x
  else if -8 ≤ x then x + 8
  else x + max 8 (2 ^ Nat.size (-x).toNat)

/-- Modelled from the spec: the static list `rumors` of defined log-fact IDs
lives in module `OWSaveExplorer.strings`, which is absent from the sources.
The spec fixes only that it is a static list of fact-ID strings; three
representative IDs stand in for it. -/
def rumors : List String := ["FACT_A", "FACT_B", "FACT_C"]

/-- Modelled from the spec: the static list `persistent_conditions` of
condition names lives in module `OWSaveExplorer.strings`, which is absent from
the sources. The spec fixes only that it is a static list of condition-name
strings; two representative names stand in for it. -/
def persistent_conditions : List String := ["COND_A", "COND_B"]

/-- Embedding of class `ShipLogFactSave` (`src/OWSaveExplorer/gamesave.py`):
one log-fact record. `ShipLogFactSave.from_dict` copies exactly these four
fields, and `dict(record)` emits exactly these four fields, so the record is
its own JSON image. -/
structure ShipLogFactSave where
  id : String
  revealOrder : Int
  read : Bool
  newlyRevealed : Bool
deriving DecidableEq, Repr

/-- Embedding of class `GameSave` (`src/OWSaveExplorer/gamesave.py`).
`knownFrequencies` is positional (the dict key set is always exactly
`FrequencyEnum(0..6)`, so the dict is a 7-element list); `knownSignals`,
`dictConditions` and `shipLogFactSaves` are association lists in dict
insertion order; `shownPopups` is the integer value of the stored
`StartupPopupsFlag`. -/
structure GameSave where
  loopCount : Int
  knownFrequencies : List Bool
  knownSignals : List (Nat × Bool)
  dictConditions : List (String × Tristate)
  shipLogFactSaves : List (String × ShipLogFactSave)
  newlyRevealedFactIDs : List String
  lastDeathType : DeathType
  burnedMarshmallowEaten : Int
  fullTimeloops : Int
  perfectMarshmallowsEaten : Int
  warpedToTheEye : Bool
  secondsRemainingOnWarp : Rat
  loopCountOnParadox : Int
  shownPopups : Int
  version : String
  ps5Activity_canResumeExpedition : Bool
  ps5Activity_availableShipLogCards : List String
  didRunInitGammaSetting : Bool
deriving DecidableEq, Repr

/-- Embedding of `GameSave.__init__` (`src/OWSaveExplorer/gamesave.py` lines
64-94): frequency 0 (the base band `FrequencyEnum._`) is `True` and the other
six are `False`; every signal is `False`; `dictConditions` starts as the empty
dict (the constructor does not populate it); every rumor gets a record with
`revealOrder = -1`; `loopCount` is 1. -/
def GameSave.init : GameSave where
  loopCount := 1
  knownFrequencies := true :: List.replicate 6 false
  knownSignals := signalCodes.map (fun c => (c, false))
  dictConditions := []
  shipLogFactSaves := rumors.map (fun r => (r, ⟨r, -1, false, false⟩))
  newlyRevealedFactIDs := []
  lastDeathType := ⟨0, by omega⟩
  burnedMarshmallowEaten := 0
  fullTimeloops := 0
  perfectMarshmallowsEaten := 0
  warpedToTheEye := false
  secondsRemainingOnWarp := 0
  loopCountOnParadox := 0
  shownPopups := 0
  version := "NONE"
  ps5Activity_canResumeExpedition := false
  ps5Activity_availableShipLogCards := []
  didRunInitGammaSetting := false

/-- A parsed save document as accepted by `GameSave.from_json`: the result of
`json.loads` on the file, with each field already of the shape the loader
consumes (`knownFrequencies` a JSON array of booleans, `knownSignals` a JSON
object with integer-string keys, `dictConditions` values `true`/`false`/`null`,
log-fact entries carrying the four record fields). -/
structure SaveData where
  loopCount : Int
  knownFrequencies : List Bool
  knownSignals : List (Nat × Bool)
  dictConditions : List (String × Option Bool)
  shipLogFactSaves : List (String × ShipLogFactSave)
  newlyRevealedFactIDs : List String
  lastDeathType : Int
  burnedMarshmallowEaten : Int
  fullTimeloops : Int
  perfectMarshmallowsEaten : Int
  warpedToTheEye : Bool
  secondsRemainingOnWarp : Rat
  loopCountOnParadox : Int
  shownPopups : Int
  version : String
  ps5Activity_canResumeExpedition : Bool
  ps5Activity_availableShipLogCards : List String
  didRunInitGammaSetting : Bool
deriving DecidableEq, Repr

/-- Assignment `d[k] = v` on a Python dict holding key `k`: the value is
replaced in place, insertion order is unchanged. When `k` is absent this
helper leaves the list unchanged (callers use `upsertAssoc` for the general
dict assignment). -/
def updateAssoc {κ β : Type} [DecidableEq κ] (k : κ) (v : β) :
    List (κ × β) → List (κ × β)
  | [] => []
  | (k1, v1) :: t =>
    if k1 = k then (k1, v) :: updateAssoc k v t else (k1, v1) :: updateAssoc k v t

/-- Lookup in an association list (first match), as Python `dict` access keyed
by `k` behaves on the lists produced here. -/
def lookupA {κ β : Type} [DecidableEq κ] (k : κ) : List (κ × β) → Option β
  | [] => none
  | (k1, v) :: t => if k1 = k then some v else lookupA k t

/-- Keys of an association list, in order. -/
def keysA {κ β : Type} (l : List (κ × β)) : List κ := l.map Prod.fst

/-- General Python dict assignment `d[k] = v`: replace in place when the key
exists, append otherwise. -/
def upsertAssoc {κ β : Type} [DecidableEq κ] (k : κ) (v : β)
    (l : List (κ × β)) : List (κ × β) :=
  if k ∈ keysA l then updateAssoc k v l else l ++ [(k, v)]

/-- Fold of Python dict assignments `d[k] = v` over a list of pairs (the
`shipLogFactSaves` loop of `GameSave.from_json`, lines 114-115). -/
def upsAll {κ β : Type} [DecidableEq κ] (acc : List (κ × β))
    (ps : List (κ × β)) : List (κ × β) :=
  ps.foldl (fun a kv => upsertAssoc kv.1 kv.2 a) acc

/-- Fold of in-place dict updates over a list of pairs (the shape the signal
loop takes once every key has been checked against the defined codes). -/
def updAll {κ β : Type} [DecidableEq κ] (acc : List (κ × β))
    (ps : List (κ × β)) : List (κ × β) :=
  ps.foldl (fun a kv => updateAssoc kv.1 kv.2 a) acc

/-- Embedding of the `knownSignals` loop of `GameSave.from_json` (lines
108-109): each entry updates `save.knownSignals[SignalEnum(int(k))]`, and an
undefined signal code raises `ValueError`. -/
def loadSignals : List (Nat × Bool) → List (Nat × Bool) →
    Except PyErr (List (Nat × Bool))
  | [], acc => .ok acc
  | (k, v) :: t, acc =>
    if k ∈ signalCodes then loadSignals t (updateAssoc k v acc)
    else .error .valueError

/-- Embedding of `GameSave.from_json` (`src/OWSaveExplorer/gamesave.py` lines
96-131). A fresh default save is built and then overwritten field by field:
the frequency array overwrites positions `0..len-1` (an array longer than 7
raises `ValueError` through `FrequencyEnum(k)`); signal entries must name
defined codes; every name of `persistent_conditions` is looked up with `.get`,
absent keys defaulting to `None` (producing `unknown`); log-fact entries
update or extend the record dict; `lastDeathType` must be a defined
`DeathTypeEnum` code; `shownPopups` is normalised by `StartupPopupsFlag`.
Any raised error aborts the whole load and no save object is produced. -/
def GameSave.from_json (d : SaveData) : Except PyErr GameSave := do
  if 7 < d.knownFrequencies.length then throw .valueError
  let freqs := d.knownFrequencies ++
    (GameSave.init.knownFrequencies.drop d.knownFrequencies.length)
  let sigs ← loadSignals d.knownSignals GameSave.init.knownSignals
  let conds := persistent_conditions.map
    (fun c => (c, Tristate.mk (lookupA c d.dictConditions).join))
  let facts := upsAll GameSave.init.shipLogFactSaves d.shipLogFactSaves
  let death ← match DeathType.ofInt d.lastDeathType with
    | some dt => pure dt
    | none => throw .valueError
  return { loopCount := d.loopCount
           knownFrequencies := freqs
           knownSignals := sigs
           dictConditions := conds
           shipLogFactSaves := facts
           newlyRevealedFactIDs := d.newlyRevealedFactIDs
           lastDeathType := death
           burnedMarshmallowEaten := d.burnedMarshmallowEaten
           fullTimeloops := d.fullTimeloops
           perfectMarshmallowsEaten := d.perfectMarshmallowsEaten
           warpedToTheEye := d.warpedToTheEye
           secondsRemainingOnWarp := d.secondsRemainingOnWarp
           loopCountOnParadox := d.loopCountOnParadox
           shownPopups := popupsNorm d.shownPopups
           version := d.version
           ps5Activity_canResumeExpedition := d.ps5Activity_canResumeExpedition
           ps5Activity_availableShipLogCards := d.ps5Activity_availableShipLogCards
           didRunInitGammaSetting := d.didRunInitGammaSetting }

/-- The document emitted by `GameSave.to_json` (`src/OWSaveExplorer/gamesave.py`
lines 133-169) before it is serialised with `json.dumps`: the frequency dict is
emitted as the array of its values at keys `0..6`; the signal dict is emitted
in full; `dictConditions` entries whose value is `None` (unknown) are omitted;
the log-fact dict is emitted in full; `lastDeathType` and `shownPopups` are
emitted as integers. -/
def GameSave.to_json_data (g : GameSave) : SaveData where
  loopCount := g.loopCount
  knownFrequencies := (List.range 7).map (fun i => g.knownFrequencies.getD i false)
  knownSignals := g.knownSignals
  dictConditions := g.dictConditions.filterMap
    (fun cv => match cv.2.value with
      | some b => some (cv.1, some b)
      | none => none)
  shipLogFactSaves := g.shipLogFactSaves
  newlyRevealedFactIDs := g.newlyRevealedFactIDs
  lastDeathType := (g.lastDeathType.val : Int)
  burnedMarshmallowEaten := g.burnedMarshmallowEaten
  fullTimeloops := g.fullTimeloops
  perfectMarshmallowsEaten := g.perfectMarshmallowsEaten
  warpedToTheEye := g.warpedToTheEye
  secondsRemainingOnWarp := g.secondsRemainingOnWarp
  loopCountOnParadox := g.loopCountOnParadox
  shownPopups := g.shownPopups
  version := g.version
  ps5Activity_canResumeExpedition := g.ps5Activity_canResumeExpedition
  ps5Activity_availableShipLogCards := g.ps5Activity_availableShipLogCards
  didRunInitGammaSetting := g.didRunInitGammaSetting

/-- Embedding of `GameSave.to_json`: the emitted document is re-parsed through
`self.from_json(dumps(data))` before being returned (line 167); a failing
re-parse propagates its error instead of returning the document. -/
def GameSave.to_json (g : GameSave) : Except PyErr SaveData := do
  let d := g.to_json_data
  let _ ← GameSave.from_json d
  return d

/-- The sort mode tracked per tree instance (`self.sorted_by` in
`GameSaveTree`): sort the log-fact nodes by reveal order or alphabetically. -/
inductive SortMode where
  | reveal : SortMode
  | alpha : SortMode
deriving DecidableEq, Repr

/-- The slice of `GameSaveTree` state that the log-fact actions read and
write: the children of the `shipLogFactSaves` node in display order (each
node holding one `ShipLogFactSave` record), the value of the
`newlyRevealedFactIDs` entry, and the current sort mode. -/
structure TreeState where
  facts : List ShipLogFactSave
  newlyRevealedFactIDs : List String
  sorted_by : SortMode
deriving DecidableEq, Repr

/-- Comparison used by `sorted(..., key=lambda x: x.data.value.revealOrder)`. -/
def rAsc (a b : ShipLogFactSave) : Prop := a.revealOrder ≤ b.revealOrder

/-- Comparison realising `sort(key=revealOrder, reverse=True)`: Python keeps
equal-key elements in their original relative order, which is exactly a stable
sort by this relation. -/
def rDesc (a b : ShipLogFactSave) : Prop := b.revealOrder ≤ a.revealOrder

/-- Comparison realising `sort(key=id, reverse=True)`. -/
def rAlpha (a b : ShipLogFactSave) : Prop := b.id ≤ a.id

/-- Comparison used by `set_gamesave` when sorting the `(key, record)` items
of the model dict by reveal order. -/
def rAscPair (a b : String × ShipLogFactSave) : Prop :=
  a.2.revealOrder ≤ b.2.revealOrder

instance : DecidableRel rAsc := fun a b => Int.decLe a.revealOrder b.revealOrder

instance : DecidableRel rDesc := fun a b => Int.decLe b.revealOrder a.revealOrder

instance : DecidableRel rAlpha := fun a b => inferInstanceAs (Decidable (b.id ≤ a.id))

instance : DecidableRel rAscPair :=
  fun a b => Int.decLe a.2.revealOrder b.2.revealOrder

instance : IsTotal ShipLogFactSave rAsc := ⟨fun a b => Int.le_total a.revealOrder b.revealOrder⟩

instance : IsTrans ShipLogFactSave rAsc := ⟨fun _ _ _ h1 h2 => le_trans h1 h2⟩

instance : IsTotal ShipLogFactSave rDesc := ⟨fun a b => Int.le_total b.revealOrder a.revealOrder⟩

instance : IsTrans ShipLogFactSave rDesc := ⟨fun _ _ _ h1 h2 => le_trans h2 h1⟩

instance : IsTotal ShipLogFactSave rAlpha := ⟨fun a b => le_total b.id a.id⟩

instance : IsTrans ShipLogFactSave rAlpha := ⟨fun _ _ _ h1 h2 => le_trans h2 h1⟩

instance : IsTotal (String × ShipLogFactSave) rAscPair := ⟨fun a b => Int.le_total a.2.revealOrder b.2.revealOrder⟩

instance : IsTrans (String × ShipLogFactSave) rAscPair :=
  ⟨fun _ _ _ h1 h2 => le_trans h1 h2⟩

/-- Embedding of `GameSaveTree.action_sort` (`src/OWSaveExplorer/widgets/
gamesave.py` lines 452-487) restricted to its effect on the children list:
the children are stably sorted descending by the mode key
(`children.sort(key=key, reverse=True)`) and then re-inserted each at
position 0, which reverses the sorted list. -/
def action_sort (mode : SortMode) (l : List ShipLogFactSave) :
    List ShipLogFactSave :=
  match mode with
  | .reveal => (List.insertionSort rDesc l).reverse
  | .alpha => (List.insertionSort rAlpha l).reverse

/-- Python `max` over a non-empty list (the empty case never arises: the tree
always has one child per defined rumor, and `max()` on an empty sequence would
raise; the junk value 0 marks that unreachable case). -/
def pyMax : List Int → Int
  | [] => 0
  | x :: t => t.foldl max x

/-- The renumbering loop of `GameSaveTree.submit_edit` (lines 534-545): walk
the children in ascending `revealOrder` order threading the counter `c`;
children whose current order is `-1` or equals the selected child old order
are skipped; every other child is assigned the next counter value, the
counter skipping over `newv` once. The returned association list maps each
reassigned child id to its new order. -/
def passAux (oldv newv : Int) : List ShipLogFactSave → Int → List (String × Int)
  | [], _ => []
  | f :: t, c =>
    if f.revealOrder = -1 then passAux oldv newv t c
    else if f.revealOrder = oldv then passAux oldv newv t c
    else
      let c1 := if c = newv then c + 1 else c
      (f.id, c1) :: passAux oldv newv t (c1 + 1)

/-- Embedding of the `ShipLogFactSave` branch of `GameSaveTree.submit_edit`
(`src/OWSaveExplorer/widgets/gamesave.py` lines 517-556): renumber all other
revealed children with the skip-and-compact loop, clamp the requested order by
`min(new_value, max(revealOrder) + 1)` computed over the mutated children (the
selected child still holding its old order), write the clamped order into the
selected child, and finally re-sort the display under the current sort mode. -/
def submit_edit (ts : TreeState) (selId : String) (newv : Int) : TreeState :=
  match ts.facts.find? (fun f => f.id == selId) with
  | none => ts
  | some sel =>
    let oldv := sel.revealOrder
    let snapshot := List.insertionSort rAsc ts.facts
    let assigns := passAux oldv newv snapshot 0
    let facts1 := ts.facts.map (fun f =>
      match lookupA f.id assigns with
      | some c => { f with revealOrder := c }
      | none => f)
    let newv2 := min newv (pyMax (facts1.map (fun f => f.revealOrder + 1)))
    let facts2 := facts1.map
      (fun f => if f.id == selId then { f with revealOrder := newv2 } else f)
    { facts := action_sort ts.sorted_by facts2
      newlyRevealedFactIDs := ts.newlyRevealedFactIDs
      sorted_by := ts.sorted_by }

/-- The parameter of `GameSaveTree.action_set_log_state`. -/
inductive LogStateParam where
  | read : LogStateParam
  | reveal : LogStateParam
  | new_reveal : LogStateParam
deriving DecidableEq, Repr

/-- Set the `newlyRevealed` flag of the selected child. -/
def setFlag (l : List ShipLogFactSave) (selId : String) (b : Bool) :
    List ShipLogFactSave :=
  l.map (fun f => if f.id == selId then { f with newlyRevealed := b } else f)

/-- Embedding of `GameSaveTree.action_set_log_state`
(`src/OWSaveExplorer/widgets/gamesave.py` lines 423-450). With parameter
`read` the read flag is toggled. With `reveal`: a revealed child is submitted
order `-1`, its `newlyRevealed` flag cleared and its id filtered out of
`newlyRevealedFactIDs`; an unrevealed child is submitted order
`max(revealOrder) + 1`, its flag set and its id appended. With `new_reveal`
the flag is toggled and the id list updated to match. -/
def action_set_log_state (ts : TreeState) (selId : String) (p : LogStateParam) :
    TreeState :=
  match ts.facts.find? (fun f => f.id == selId) with
  | none => ts
  | some sel =>
    match p with
    | .read =>
      { ts with
        facts := ts.facts.map
          (fun f => if f.id == selId then { f with read := !f.read } else f) }
    | .reveal =>
      if sel.revealOrder > -1 then
        let ts1 := submit_edit ts selId (-1)
        { ts1 with
          facts := setFlag ts1.facts selId false
          newlyRevealedFactIDs :=
            ts1.newlyRevealedFactIDs.filter (fun x => !(x == sel.id)) }
      else
        let m := pyMax (ts.facts.map (fun f => f.revealOrder + 1))
        let ts1 := submit_edit ts selId m
        { ts1 with
          facts := setFlag ts1.facts selId true
          newlyRevealedFactIDs := ts1.newlyRevealedFactIDs ++ [sel.id] }
    | .new_reveal =>
      let b := !sel.newlyRevealed
      { ts with
        facts := setFlag ts.facts selId b
        newlyRevealedFactIDs :=
          if b then ts.newlyRevealedFactIDs ++ [sel.id]
          else ts.newlyRevealedFactIDs.filter (fun x => !(x == sel.id)) }

/-- Embedding of `GameSaveTree.set_gamesave` restricted to the state of
`TreeState`: the log-fact children are rebuilt from the model dict items
sorted ascending by reveal order, and the `newlyRevealedFactIDs` entry takes
the model list; a fresh tree starts in `reveal` sort mode. -/
def treeOfSave (g : GameSave) : TreeState where
  facts := (List.insertionSort rAscPair g.shipLogFactSaves).map Prod.snd
  newlyRevealedFactIDs := g.newlyRevealedFactIDs
  sorted_by := .reveal

/-- The reveal orders of the revealed facts (values `≥ 0`), as a multiset
(list). -/
def revealedOrders (l : List ShipLogFactSave) : List Int :=
  (l.map (fun f => f.revealOrder)).filter (fun o => decide (0 ≤ o))

/-- Every record order is at least `-1` (the spec type of `revealOrder`). -/
def WellFormedFacts (l : List ShipLogFactSave) : Prop :=
  ∀ f ∈ l, -1 ≤ f.revealOrder

/-- The density invariant of the spec: the multiset of non-negative reveal
orders is exactly the set of integers `0, 1, ..., k-1` where `k` is the number
of revealed facts (in particular it has no duplicates). -/
def DenseFacts (l : List ShipLogFactSave) : Prop :=
  (revealedOrders l).Perm
    ((List.range (revealedOrders l).length).map Int.ofNat)

instance (l : List ShipLogFactSave) : Decidable (DenseFacts l) :=
  inferInstanceAs (Decidable (List.Perm _ _))

/-- Newly-revealed consistency (spec section 3): the `newlyRevealedFactIDs`
list holds exactly the ids of the facts whose `newlyRevealed` flag is set. -/
def SetConsistent (ts : TreeState) : Prop :=
  ∀ i : String,
    i ∈ ts.newlyRevealedFactIDs ↔ ∃ f ∈ ts.facts, f.id = i ∧ f.newlyRevealed

/-- The children kept (not skipped) by the renumbering loop of `submit_edit`:
those whose current order is neither `-1` nor the selected child old order. -/
def passKeep (oldv : Int) (f : ShipLogFactSave) : Bool :=
  !(f.revealOrder == -1) && !(f.revealOrder == oldv)

/-- Sequential assignment of consecutive counter values to a list of children,
starting at `c`: the shape `passAux` takes when the requested order is
negative (the counter never equals it, so it is never skipped over). -/
def seqAssign : Int → List ShipLogFactSave → List (String × Int)
  | _, [] => []
  | c, f :: t => (f.id, c) :: seqAssign (c + 1) t

/-- The document emitted for a freshly constructed save: the default state as
it appears on disk. -/
def baseDoc : SaveData := GameSave.init.to_json_data

/-- The save produced by loading `baseDoc`: identical to the default save
except that `dictConditions` is now populated, every condition name mapping to
`unknown` (the loader populates the full fixed key set, the constructor leaves
the dict empty). -/
def defaultLoaded : GameSave :=
  { GameSave.init with
    dictConditions := persistent_conditions.map (fun c => (c, ⟨none⟩)) }

/-!
Theorems. Each claim of the specification gets one main theorem below
(witnesses instantiate theorems with hypotheses at concrete inputs;
counterexamples refute claims at concrete inputs).
-/

/-- C6: for all three states of the tri-state value (true, false, unknown),
boolean coercion fails with a TypeError-class error; no state is implicitly
coercible. -/
theorem C6_tristate_bool_always_raises (t : Tristate) :
    t.toBool = Except.error PyErr.typeError :=
  rfl

/-- C8 counterexample: the default-constructed save does not populate the
persistent-condition map at all; the condition name COND_A is a defined
persistent condition, yet it is absent from the map of `GameSave.init`
(rather than present with value `unknown` as the claim states). -/
theorem C8_counterexample_conditions_absent :
    GameSave.init.dictConditions = [] ∧
    "COND_A" ∈ persistent_conditions ∧
    lookupA "COND_A" GameSave.init.dictConditions = none := by
  decide

/-- C8 amended: the default-constructed save has `loopCount = 1`, the full
7-entry frequency map with the base frequency true and the rest false, the
full signal map all false, every defined log fact present with
`revealOrder = -1` and cleared flags, and an empty `newlyRevealedFactIDs`
list; but its `dictConditions` map is empty (conditions are populated only by
a load, where absent keys default to unknown). -/
theorem C8_amended_default_state :
    GameSave.init.loopCount = 1 ∧
    GameSave.init.knownFrequencies = true :: List.replicate 6 false ∧
    GameSave.init.knownFrequencies.length = 7 ∧
    keysA GameSave.init.knownSignals = signalCodes ∧
    GameSave.init.knownSignals.all (fun p => p.2 == false) = true ∧
    GameSave.init.dictConditions = [] ∧
    keysA GameSave.init.shipLogFactSaves = rumors ∧
    GameSave.init.shipLogFactSaves.all
      (fun p => p.2 == ⟨p.1, -1, false, false⟩) = true ∧
    GameSave.init.newlyRevealedFactIDs = [] := by
  decide

/-- C1 (code bug): from the dense state with two facts at orders 0 and 1,
submitting order 2 for the fact currently at the maximum order 1 (a request
the edit validator allows, since it clamps edits to `max(revealOrder) + 1`
computed over all children including the selected one) yields orders 0 and 2:
the multiset of non-negative orders is no longer an initial segment, so the
reveal-order density postcondition fails after this call. -/
theorem C1_density_broken_by_self_append :
    DenseFacts [⟨"FACT_A", 0, false, false⟩, ⟨"FACT_B", 1, false, false⟩] ∧
    (submit_edit
        ⟨[⟨"FACT_A", 0, false, false⟩, ⟨"FACT_B", 1, false, false⟩], [], .reveal⟩
        "FACT_B" 2).facts.map (fun f => (f.id, f.revealOrder)) =
      [("FACT_A", 0), ("FACT_B", 2)] ∧
    ¬ DenseFacts
        (submit_edit
          ⟨[⟨"FACT_A", 0, false, false⟩, ⟨"FACT_B", 1, false, false⟩], [], .reveal⟩
          "FACT_B" 2).facts := by
  decide

/-- C5 counterexample: with two unrevealed facts (both at reveal order `-1`),
applying the byRevealOrder sort twice produces a different display order than
applying it once — each application reverses the tied block, because the
stable descending sort followed by the re-insertion reversal swaps equal-key
elements. -/
theorem C5_counterexample_sort_swaps_ties :
    action_sort .reveal
        (action_sort .reveal
          [⟨"FACT_A", -1, false, false⟩, ⟨"FACT_B", -1, false, false⟩]) ≠
      action_sort .reveal
        [⟨"FACT_A", -1, false, false⟩, ⟨"FACT_B", -1, false, false⟩] := by
  decide

/-- Inserting an element that compares strictly below every element of the
list (under the descending comparison) appends it at the end. -/
theorem orderedInsert_append_of_forall_not (x : ShipLogFactSave)
    (l : List ShipLogFactSave) (h : ∀ y ∈ l, ¬ rDesc x y) :
    List.orderedInsert rDesc x l = l ++ [x] := by
  induction l with
  | nil => rfl
  | cons b t ih =>
    have hb : ¬ rDesc x b := h b (by simp)
    simp only [List.orderedInsert, if_neg hb, List.cons_append]
    rw [ih (fun y hy => h y (by simp [hy]))]

/-- Stably sorting a strictly ascending list with the descending comparison
reverses it. -/
theorem insertionSort_rDesc_of_strict_inc (l : List ShipLogFactSave)
    (h : l.Pairwise (fun a b => a.revealOrder < b.revealOrder)) :
    List.insertionSort rDesc l = l.reverse := by
  induction l with
  | nil => rfl
  | cons a t ih =>
    have hhead := (List.pairwise_cons.mp h).1
    rw [List.insertionSort, ih (List.pairwise_cons.mp h).2,
      orderedInsert_append_of_forall_not, List.reverse_cons]
    intro y hy
    have hlt : a.revealOrder < y.revealOrder := hhead y (List.mem_reverse.mp hy)
    unfold rDesc
    omega

/-- C5 amended: the byRevealOrder sort is idempotent on any log-fact
collection whose reveal orders are pairwise distinct (in particular whenever
every fact is revealed, since revealed orders are unique); when several
unrevealed facts share order `-1` a second application reverses each tied
block instead (see the counterexample). -/
theorem C5_amended_sort_idempotent_distinct (l : List ShipLogFactSave)
    (h : (l.map (fun f => f.revealOrder)).Nodup) :
    action_sort .reveal (action_sort .reveal l) = action_sort .reveal l := by
  show (List.insertionSort rDesc ((List.insertionSort rDesc l).reverse)).reverse =
    (List.insertionSort rDesc l).reverse
  have hsort : (List.insertionSort rDesc l).Pairwise rDesc :=
    List.sorted_insertionSort rDesc l
  have hperm := List.perm_insertionSort rDesc l
  have hnd : ((List.insertionSort rDesc l).map (fun f => f.revealOrder)).Nodup :=
    ((hperm.map (fun f => f.revealOrder)).nodup_iff).mpr h
  have hne : (List.insertionSort rDesc l).Pairwise
      (fun a b => a.revealOrder ≠ b.revealOrder) := List.pairwise_map.mp hnd
  have hstrict : ((List.insertionSort rDesc l).reverse).Pairwise
      (fun a b => a.revealOrder < b.revealOrder) := by
    rw [List.pairwise_reverse]
    exact (hsort.and hne).imp (fun hab => by
      rcases hab with ⟨hle, hne1⟩
      have : ¬ (_ = _) := hne1
      unfold rDesc at hle
      omega)
  rw [insertionSort_rDesc_of_strict_inc _ hstrict, List.reverse_reverse]

/-- C5 witness: a concrete three-fact collection with distinct reveal orders
on which the amended idempotence theorem applies. -/
theorem C5_amended_witness :
    (([⟨"FACT_A", 0, false, false⟩, ⟨"FACT_C", 2, false, false⟩,
        ⟨"FACT_B", 1, false, false⟩] : List ShipLogFactSave).map
        (fun f => f.revealOrder)).Nodup ∧
    action_sort .reveal
        (action_sort .reveal
          [⟨"FACT_A", 0, false, false⟩, ⟨"FACT_C", 2, false, false⟩,
            ⟨"FACT_B", 1, false, false⟩]) =
      action_sort .reveal
        [⟨"FACT_A", 0, false, false⟩, ⟨"FACT_C", 2, false, false⟩,
          ⟨"FACT_B", 1, false, false⟩] :=
  ⟨by decide, C5_amended_sort_idempotent_distinct _ (by decide)⟩

/-- Any error produced by the signal-loading loop is a ValueError. -/
theorem loadSignals_error_eq (l acc : List (Nat × Bool)) (e : PyErr)
    (h : loadSignals l acc = .error e) : e = .valueError := by
  induction l generalizing acc with
  | nil => simp [loadSignals] at h
  | cons kv t ih =>
    obtain ⟨k, v⟩ := kv
    by_cases hk : k ∈ signalCodes
    · rw [loadSignals, if_pos hk] at h
      exact ih _ h
    · rw [loadSignals, if_neg hk] at h
      exact (Except.error.inj h).symm

/-- C9 counterexample: the integer 8 is not a defined member (nor a
combination of defined members 1, 2, 4) of the startup-popups flag, yet a
document storing `shownPopups = 8` loads successfully: under the `IntFlag`
KEEP boundary the undefined bit is kept, no error is raised and a fully
loaded model carrying the out-of-range value 8 is returned. -/
theorem C9_counterexample_popups_out_of_range_loads :
    GameSave.from_json { baseDoc with shownPopups := 8 } =
      .ok { defaultLoaded with shownPopups := 8 } := by
  decide

/-- C9 amended: for `lastDeathType` the claim holds — when the stored integer
has no defined `DeathTypeEnum` member the whole load aborts with a
ValueError-class error and no model is returned (so any previously loaded
model is untouched); `shownPopups`, however, undergoes no such validation
(`IntFlag` keeps undefined bits, see the counterexample). -/
theorem C9_amended_bad_death_type_aborts (d : SaveData)
    (h : DeathType.ofInt d.lastDeathType = none) :
    GameSave.from_json d = .error .valueError := by
  by_cases h7 : 7 < d.knownFrequencies.length
  · simp [GameSave.from_json, h7, bind, Except.bind, throw, throwThe,
      MonadExceptOf.throw]
  · cases hs : loadSignals d.knownSignals GameSave.init.knownSignals with
    | error e =>
      have := loadSignals_error_eq _ _ _ hs
      subst this
      simp [GameSave.from_json, h7, hs, bind, Except.bind, throw, throwThe,
        MonadExceptOf.throw, pure, Except.pure]
    | ok sigs =>
      simp [GameSave.from_json, h7, hs, h, bind, Except.bind, throw, throwThe,
        MonadExceptOf.throw, pure, Except.pure]

/-- C9 witness: a concrete document storing the undefined death code 15 is
rejected by the loader. -/
theorem C9_amended_witness :
    DeathType.ofInt (15 : Int) = none ∧
    GameSave.from_json { baseDoc with lastDeathType := 15 } =
      .error .valueError :=
  ⟨by decide, C9_amended_bad_death_type_aborts _ (by decide)⟩

/-- C10: serialization re-parses its own emitted document through the loader
before returning: it returns the emitted document exactly when that document
loads successfully, and otherwise propagates the load error instead of
returning unloadable output (the hypothesis restricts to well-formed models,
whose frequency map carries its full 7-key set as every reachable model
does; being a pure function of the model, serialization leaves the model
unchanged in both cases). -/
theorem C10_to_json_self_check (g : GameSave)
    (_hwf : g.knownFrequencies.length = 7) :
    (∀ d : SaveData, g.to_json = .ok d ↔
      d = g.to_json_data ∧ ∀ e, GameSave.from_json g.to_json_data ≠ .error e) ∧
    (∀ e : PyErr, g.to_json = .error e ↔
      GameSave.from_json g.to_json_data = .error e) := by
  cases hfj : GameSave.from_json g.to_json_data with
  | error e0 =>
    constructor
    · intro d
      simp [GameSave.to_json, hfj]
    · intro e
      simp [GameSave.to_json, hfj]
  | ok m =>
    constructor
    · intro d
      simp [GameSave.to_json, hfj, eq_comm]
    · intro e
      simp [GameSave.to_json, hfj]

/-- C10 witness: the default loaded model serializes successfully and its
emitted document is returned unchanged. -/
theorem C10_witness :
    defaultLoaded.knownFrequencies.length = 7 ∧
    defaultLoaded.to_json = .ok defaultLoaded.to_json_data :=
  have hok : GameSave.from_json defaultLoaded.to_json_data =
      .ok defaultLoaded := by decide
  ⟨by decide,
    ((C10_to_json_self_check defaultLoaded (by decide)).1 _).mpr
      ⟨rfl, fun e hcontra => by rw [hok] at hcontra; exact Except.noConfusion hcontra⟩⟩

theorem keysA_nil {κ β : Type} : keysA ([] : List (κ × β)) = [] := rfl

theorem keysA_cons {κ β : Type} (p : κ × β) (t : List (κ × β)) :
    keysA (p :: t) = p.1 :: keysA t := rfl

theorem mem_keysA_of_mem {κ β : Type} {p : κ × β} {l : List (κ × β)}
    (h : p ∈ l) : p.1 ∈ keysA l :=
  List.mem_map_of_mem Prod.fst h

section AssocLemmas

variable {κ β : Type} [DecidableEq κ]

theorem keysA_updateAssoc (k : κ) (v : β) (l : List (κ × β)) :
    keysA (updateAssoc k v l) = keysA l := by
  induction l with
  | nil => rfl
  | cons p t ih =>
    obtain ⟨k1, v1⟩ := p
    by_cases h : k1 = k
    · rw [updateAssoc, if_pos h, keysA_cons, keysA_cons, ih]
    · rw [updateAssoc, if_neg h, keysA_cons, keysA_cons, ih]

theorem lookupA_eq_none {k : κ} {l : List (κ × β)} (h : k ∉ keysA l) :
    lookupA k l = none := by
  induction l with
  | nil => rfl
  | cons p t ih =>
    obtain ⟨k1, v1⟩ := p
    rw [keysA_cons, List.mem_cons] at h
    push_neg at h
    rw [lookupA, if_neg (fun hh => h.1 hh.symm)]
    exact ih h.2

theorem mem_keysA_of_lookupA {k : κ} {l : List (κ × β)} {v : β}
    (h : lookupA k l = some v) : k ∈ keysA l := by
  by_contra hk
  rw [lookupA_eq_none hk] at h
  exact Option.noConfusion h

theorem lookupA_some_of_mem {k : κ} {l : List (κ × β)} (h : k ∈ keysA l) :
    ∃ v, lookupA k l = some v := by
  induction l with
  | nil => simp [keysA_nil] at h
  | cons p t ih =>
    obtain ⟨k1, v1⟩ := p
    by_cases h1 : k1 = k
    · exact ⟨v1, by rw [lookupA, if_pos h1]⟩
    · rw [keysA_cons, List.mem_cons] at h
      rcases h with h | h
    
      · exact absurd h.symm h1
      · obtain ⟨v, hv⟩ := ih h
        exact ⟨v, by rw [lookupA, if_neg h1]; exact hv⟩

theorem lookupA_updateAssoc_self (k : κ) (v : β) (l : List (κ × β)) :
    lookupA k (updateAssoc k v l) = (lookupA k l).map (fun _ => v) := by
  induction l with
  | nil => rfl
  | cons p t ih =>
    obtain ⟨k1, v1⟩ := p
    by_cases h : k1 = k
    · rw [updateAssoc, if_pos h, lookupA, if_pos h, lookupA, if_pos h]
      rfl
    · rw [updateAssoc, if_neg h, lookupA, if_neg h, lookupA, if_neg h]
      exact ih

theorem lookupA_updateAssoc_ne {j k : κ} (h : j ≠ k) (v : β)
    (l : List (κ × β)) : lookupA j (updateAssoc k v l) = lookupA j l := by
  induction l with
  | nil => rfl
  | cons p t ih =>
    obtain ⟨k1, v1⟩ := p
    by_cases h1 : k1 = k
    · have h2 : ¬ k1 = j := fun hh => h (hh ▸ h1)
      rw [updateAssoc, if_pos h1, lookupA, if_neg h2, lookupA, if_neg h2]
      exact ih
    · by_cases h2 : k1 = j
      · rw [updateAssoc, if_neg h1, lookupA, if_pos h2, lookupA, if_pos h2]
      · rw [updateAssoc, if_neg h1, lookupA, if_neg h2, lookupA, if_neg h2]
        exact ih

theorem keysA_updAll (acc ps : List (κ × β)) :
    keysA (updAll acc ps) = keysA acc := by
  induction ps generalizing acc with
  | nil => rfl
  | cons kv t ih =>
    show keysA (updAll (updateAssoc kv.1 kv.2 acc) t) = keysA acc
    rw [ih, keysA_updateAssoc]

theorem lookupA_updAll (acc ps : List (κ × β))
    (hnd : (keysA ps).Nodup) (hsub : ∀ k ∈ keysA ps, k ∈ keysA acc) (j : κ) :
    lookupA j (updAll acc ps) =
      match lookupA j ps with
      | some w => some w
      | none => lookupA j acc := by
  induction ps generalizing acc with
  | nil => rfl
  | cons kv t ih =>
    obtain ⟨k, v⟩ := kv
    rw [keysA_cons, List.nodup_cons] at hnd
    have hksub : ∀ i ∈ keysA t, i ∈ keysA (updateAssoc k v acc) := by
      intro i hi
      rw [keysA_updateAssoc]
      exact hsub i (by rw [keysA_cons]; exact List.mem_cons_of_mem _ hi)
    show lookupA j (updAll (updateAssoc k v acc) t) = _
    rw [ih _ hnd.2 hksub]
    by_cases hjk : j = k
    · subst hjk
      have hnt : lookupA j t = none := lookupA_eq_none hnd.1
      obtain ⟨w, hw⟩ := lookupA_some_of_mem
        (hsub j (by rw [keysA_cons]; exact List.mem_cons_self _ _))
      rw [hnt, lookupA, if_pos rfl, lookupA_updateAssoc_self, hw]
      rfl
    · have h2 : ¬ k = j := fun hh => hjk hh.symm
      rw [lookupA, if_neg h2, lookupA_updateAssoc_ne hjk]

end AssocLemmas

section UpsertLemmas

variable {κ β : Type} [DecidableEq κ]

theorem assoc_ext {A B : List (κ × β)} (hk : keysA A = keysA B)
    (hnd : (keysA A).Nodup) (hl : ∀ j, lookupA j A = lookupA j B) : A = B := by
  induction A generalizing B with
  | nil =>
    cases B with
    | nil => rfl
    | cons q t => exact absurd hk (by rw [keysA_nil, keysA_cons]; intro hh; exact List.noConfusion hh)
  | cons p t ih =>
    obtain ⟨k, v⟩ := p
    cases B with
    | nil => exact absurd hk (by rw [keysA_nil, keysA_cons]; intro hh; exact List.noConfusion hh)
    | cons q s =>
      obtain ⟨k2, v2⟩ := q
      rw [keysA_cons, keysA_cons] at hk
      have hkk : k = k2 := (List.cons.injEq _ _ _ _).mp hk |>.1
      subst hkk
      have hvv : v = v2 := by
        have := hl k
        rw [lookupA, if_pos rfl, lookupA, if_pos rfl] at this
        exact Option.some.inj this
      subst hvv
      rw [keysA_cons, List.nodup_cons] at hnd
      have hts : t = s := by
        refine ih ((List.cons.injEq _ _ _ _).mp hk).2 hnd.2 ?_
        intro j
        by_cases hj : j = k
        · subst hj
          rw [lookupA_eq_none hnd.1, lookupA_eq_none]
          rw [← ((List.cons.injEq _ _ _ _).mp hk).2]
          exact hnd.1
        · have := hl j
          have hne : ¬ k = j := fun hh => hj hh.symm
          rw [lookupA, if_neg hne, lookupA, if_neg hne] at this
          exact this
      rw [hts]

theorem keysA_upsertAssoc (k : κ) (v : β) (l : List (κ × β)) :
    keysA (upsertAssoc k v l) =
      if k ∈ keysA l then keysA l else keysA l ++ [k] := by
  by_cases h : k ∈ keysA l
  · rw [upsertAssoc, if_pos h, if_pos h, keysA_updateAssoc]
  · rw [upsertAssoc, if_neg h, if_neg h]
    show (l ++ [(k, v)]).map Prod.fst = l.map Prod.fst ++ [k]
    rw [List.map_append]
    rfl

theorem keysA_upsAll_prefix (acc ps : List (κ × β)) :
    ∃ E, keysA (upsAll acc ps) = keysA acc ++ E := by
  induction ps generalizing acc with
  | nil => exact ⟨[], (List.append_nil _).symm⟩
  | cons kv t ih =>
    obtain ⟨E1, hE1⟩ := ih (upsertAssoc kv.1 kv.2 acc)
    show ∃ E, keysA (upsAll (upsertAssoc kv.1 kv.2 acc) t) = keysA acc ++ E
    rw [hE1, keysA_upsertAssoc]
    by_cases h : kv.1 ∈ keysA acc
    · exact ⟨E1, by rw [if_pos h]⟩
    · exact ⟨[kv.1] ++ E1, by rw [if_neg h, List.append_assoc]⟩

theorem nodup_keysA_upsAll (acc ps : List (κ × β))
    (hnd : (keysA acc).Nodup) : (keysA (upsAll acc ps)).Nodup := by
  induction ps generalizing acc with
  | nil => exact hnd
  | cons kv t ih =>
    show (keysA (upsAll (upsertAssoc kv.1 kv.2 acc) t)).Nodup
    refine ih _ ?_
    rw [keysA_upsertAssoc]
    by_cases h : kv.1 ∈ keysA acc
    · rw [if_pos h]; exact hnd
    · rw [if_neg h]
      exact List.Nodup.append hnd (List.nodup_singleton _)
        (List.disjoint_singleton.mpr h)

theorem upsAll_eq_updAll (acc ps : List (κ × β))
    (h : ∀ kv ∈ ps, kv.1 ∈ keysA acc) : upsAll acc ps = updAll acc ps := by
  induction ps generalizing acc with
  | nil => rfl
  | cons kv t ih =>
    show upsAll (upsertAssoc kv.1 kv.2 acc) t = updAll (updateAssoc kv.1 kv.2 acc) t
    rw [upsertAssoc, if_pos (h kv (List.mem_cons_self _ _))]
    refine ih _ ?_
    intro kv2 h2
    rw [keysA_updateAssoc]
    exact h kv2 (List.mem_cons_of_mem _ h2)

theorem upsAll_append_of_disjoint (B M2 : List (κ × β))
    (hdisj : ∀ kv ∈ M2, kv.1 ∉ keysA B) (hnd2 : (keysA M2).Nodup) :
    upsAll B M2 = B ++ M2 := by
  induction M2 generalizing B with
  | nil => exact (List.append_nil _).symm
  | cons kv t ih =>
    obtain ⟨k, v⟩ := kv
    rw [keysA_cons, List.nodup_cons] at hnd2
    show upsAll (upsertAssoc k v B) t = B ++ (k, v) :: t
    rw [upsertAssoc, if_neg (hdisj (k, v) (List.mem_cons_self _ _))]
    rw [ih (B ++ [(k, v)]) ?_ hnd2.2]
    · rw [List.append_assoc]
      rfl
    · intro kv2 h2
      show kv2.1 ∉ (B ++ [(k, v)]).map Prod.fst
      rw [List.map_append, List.mem_append]
      push_neg
      constructor
      · exact hdisj kv2 (List.mem_cons_of_mem _ h2)
      · intro hc
        rcases List.mem_singleton.mp hc with hc2
        exact hnd2.1 (hc2 ▸ mem_keysA_of_mem h2)

theorem updAll_self (A M : List (κ × β)) (hndM : (keysA M).Nodup)
    (hkeys : keysA A = keysA M) : updAll A M = M := by
  refine assoc_ext ?_ ?_ ?_
  · rw [keysA_updAll, hkeys]
  · rw [keysA_updAll, hkeys]; exact hndM
  · intro j
    rw [lookupA_updAll A M hndM (fun i hi => hkeys ▸ hi) j]
    cases hj : lookupA j M with
    | some w => rfl
    | none =>
      have : j ∉ keysA M := by
        intro hm
        obtain ⟨w, hw⟩ := lookupA_some_of_mem hm
        rw [hj] at hw
        exact Option.noConfusion hw
      rw [lookupA_eq_none (hkeys ▸ this)]

theorem upsAll_self (A M : List (κ × β)) (hndM : (keysA M).Nodup)
    (hpre : keysA A = (keysA M).take A.length) : upsAll A M = M := by
  have hlenA : keysA A = (keysA (M.take A.length)) := by
    rw [hpre]
    exact (List.map_take Prod.fst M A.length).symm
  have hsplit : M = M.take A.length ++ M.drop A.length :=
    (List.take_append_drop _ M).symm
  have hndtake : (keysA (M.take A.length)).Nodup := by
    rw [← hlenA, hpre]
    exact hndM.sublist (List.take_sublist _ _)
  have hfold : upsAll A M =
      upsAll (upsAll A (M.take A.length)) (M.drop A.length) := by
    show M.foldl _ A = _
    conv_lhs => rw [hsplit]
    rw [List.foldl_append]
    rfl
  rw [hfold]
  have h1 : upsAll A (M.take A.length) = M.take A.length := by
    rw [upsAll_eq_updAll]
    · exact updAll_self _ _ hndtake hlenA
    · intro kv hkv
      rw [hlenA]
      exact mem_keysA_of_mem hkv
  rw [h1, upsAll_append_of_disjoint]
  · exact (List.take_append_drop _ M)
  · intro kv hkv hmem
    have hnd2 : (keysA (M.take A.length) ++ keysA (M.drop A.length)).Nodup := by
      have heq : keysA M = keysA (M.take A.length) ++ keysA (M.drop A.length) := by
        show M.map Prod.fst = (M.take A.length).map Prod.fst ++ (M.drop A.length).map Prod.fst
        rw [← List.map_append]
        rw [List.take_append_drop]
      exact heq ▸ hndM
    exact (List.disjoint_of_nodup_append hnd2) hmem (mem_keysA_of_mem hkv)
  · show ((M.drop A.length).map Prod.fst).Nodup
    rw [List.map_drop]
    exact hndM.sublist (List.drop_sublist _ _)

end UpsertLemmas

theorem loadSignals_eq_ok (L acc res : List (Nat × Bool)) :
    loadSignals L acc = .ok res ↔
      ((∀ kv ∈ L, kv.1 ∈ signalCodes) ∧ res = updAll acc L) := by
  induction L generalizing acc with
  | nil =>
    constructor
    · intro h
      exact ⟨fun kv h2 => absurd h2 (List.not_mem_nil kv),
        (Except.ok.inj h).symm⟩
    · intro ⟨_, h⟩
      rw [h]
      rfl
  | cons kv t ih =>
    obtain ⟨k, v⟩ := kv
    by_cases hk : k ∈ signalCodes
    · rw [loadSignals, if_pos hk]
      rw [ih]
      constructor
      · intro ⟨h1, h2⟩
        refine ⟨?_, h2⟩
        intro kv2 h3
        rcases List.mem_cons.mp h3 with h3 | h3
        · rw [h3]; exact hk
        · exact h1 kv2 h3
      · intro ⟨h1, h2⟩
        exact ⟨fun kv2 h3 => h1 kv2 (List.mem_cons_of_mem _ h3), h2⟩
    · rw [loadSignals, if_neg hk]
      constructor
      · intro h
        exact Except.noConfusion h
      · intro ⟨h1, _⟩
        exact absurd (h1 (k, v) (List.mem_cons_self _ _)) hk

theorem keysA_map_pair {α γ : Type} (f : α → γ) (l : List α) :
    keysA (l.map (fun x => (x, f x))) = l := by
  induction l with
  | nil => rfl
  | cons a t ih =>
    rw [List.map_cons, keysA_cons, ih]

theorem lookupA_map_pair {α γ : Type} [DecidableEq α] (f : α → γ) (l : List α)
    (c : α) (hc : c ∈ l) :
    lookupA c (l.map (fun x => (x, f x))) = some (f c) := by
  induction l with
  | nil => exact absurd hc (List.not_mem_nil c)
  | cons a t ih =>
    rw [List.map_cons]
    by_cases h : a = c
    · rw [lookupA, if_pos h, h]
    · rw [lookupA, if_neg h]
      exact ih (List.mem_cons.mp hc |>.resolve_left (fun hh => h hh.symm))

theorem keysA_condSer_subset (l : List (String × Tristate)) (j : String)
    (h : j ∈ keysA (l.filterMap (fun cv => match cv.2.value with
      | some b => some (cv.1, some b)
      | none => none))) : j ∈ keysA l := by
  induction l with
  | nil => simpa [keysA_nil] using h
  | cons p t ih =>
    obtain ⟨k, v⟩ := p
    cases hv : v.value with
    | some b =>
      rw [List.filterMap_cons] at h
      simp only [hv] at h
      rw [keysA_cons] at h
      rcases List.mem_cons.mp h with h | h
      · rw [keysA_cons]; exact h ▸ List.mem_cons_self _ _
      · rw [keysA_cons]; exact List.mem_cons_of_mem _ (ih h)
    | none =>
      rw [List.filterMap_cons] at h
      simp only [hv] at h
      rw [keysA_cons]
      exact List.mem_cons_of_mem _ (ih h)

theorem lookupA_condSer (l : List (String × Tristate)) (c : String)
    (t : Tristate) (hnd : (keysA l).Nodup) (hc : lookupA c l = some t) :
    lookupA c (l.filterMap (fun cv => match cv.2.value with
      | some b => some (cv.1, some b)
      | none => none)) = t.value.map some := by
  induction l with
  | nil => exact Option.noConfusion hc
  | cons p tl ih =>
    obtain ⟨k, v⟩ := p
    rw [keysA_cons, List.nodup_cons] at hnd
    by_cases h : k = c
    · rw [lookupA, if_pos h] at hc
      have hv : v = t := Option.some.inj hc
      subst hv
      subst h
      cases hv2 : v.value with
      | some b =>
        rw [List.filterMap_cons]
        simp only [hv2]
        rw [lookupA, if_pos rfl]
        rfl
      | none =>
        rw [List.filterMap_cons]
        simp only [hv2]
        rw [lookupA_eq_none]
        · rfl
        · intro hmem
          exact hnd.1 (keysA_condSer_subset tl k hmem)
    · rw [lookupA, if_neg h] at hc
      cases hv2 : v.value with
      | some b =>
        rw [List.filterMap_cons]
        simp only [hv2]
        rw [lookupA, if_neg h]
        exact ih hnd.2 hc
      | none =>
        rw [List.filterMap_cons]
        simp only [hv2]
        exact ih hnd.2 hc

theorem map_range_getD (l : List Bool) (n : Nat) (h : l.length = n) :
    (List.range n).map (fun i => l.getD i false) = l := by
  subst h
  induction l with
  | nil => rfl
  | cons a t ih =>
    rw [List.length_cons, List.range_succ_eq_map, List.map_cons, List.map_map]
    have hcomp : ((fun i => (a :: t).getD i false) ∘ Nat.succ) =
        (fun i => t.getD i false) := by
      funext i
      rfl
    rw [hcomp, ih]
    rfl

theorem popupsNorm_nonneg (x : Int) : 0 ≤ popupsNorm x := by
  unfold popupsNorm
  by_cases h1 : 0 ≤ x
  · rw [if_pos h1]; exact h1
  · rw [if_neg h1]
    by_cases h2 : -8 ≤ x
    · rw [if_pos h2]; omega
    · rw [if_neg h2]
      have hx : (-x).toNat < 2 ^ Nat.size (-x).toNat := Nat.lt_size_self _
      have hx2 : ((-x).toNat : Int) < ((2 : Int) ^ Nat.size (-x).toNat) := by
        exact_mod_cast hx
      have hmax : ((2 : Int) ^ Nat.size (-x).toNat) ≤
          max 8 ((2 : Int) ^ Nat.size (-x).toNat) := le_max_right _ _
      omega

theorem popupsNorm_of_nonneg {x : Int} (h : 0 ≤ x) : popupsNorm x = x := by
  rw [popupsNorm, if_pos h]

theorem DeathType.ofInt_val (dt : DeathType) :
    DeathType.ofInt (dt.val : Int) = some dt := by
  have h : 0 ≤ (dt.val : Int) ∧ (dt.val : Int) < 15 := by
    have := dt.isLt
    omega
  rw [DeathType.ofInt, dif_pos h]
  have hv : ((dt.val : Int)).toNat = dt.val := by omega
  exact congrArg some (Fin.ext hv)

/-- Characterization of a successful load: the document must have at most 7
frequency entries, only defined signal codes and a defined death code, and the
resulting model is built field by field as the loader does. -/
theorem from_json_eq_ok (d : SaveData) (m : GameSave) :
    GameSave.from_json d = .ok m ↔
      (d.knownFrequencies.length ≤ 7 ∧
       (∀ kv ∈ d.knownSignals, kv.1 ∈ signalCodes) ∧
       ∃ dt, DeathType.ofInt d.lastDeathType = some dt ∧
         m = { loopCount := d.loopCount
               knownFrequencies := d.knownFrequencies ++
                 (GameSave.init.knownFrequencies.drop d.knownFrequencies.length)
               knownSignals := updAll GameSave.init.knownSignals d.knownSignals
               dictConditions := persistent_conditions.map
                 (fun c => (c, Tristate.mk (lookupA c d.dictConditions).join))
               shipLogFactSaves :=
                 upsAll GameSave.init.shipLogFactSaves d.shipLogFactSaves
               newlyRevealedFactIDs := d.newlyRevealedFactIDs
               lastDeathType := dt
               burnedMarshmallowEaten := d.burnedMarshmallowEaten
               fullTimeloops := d.fullTimeloops
               perfectMarshmallowsEaten := d.perfectMarshmallowsEaten
               warpedToTheEye := d.warpedToTheEye
               secondsRemainingOnWarp := d.secondsRemainingOnWarp
               loopCountOnParadox := d.loopCountOnParadox
               shownPopups := popupsNorm d.shownPopups
               version := d.version
               ps5Activity_canResumeExpedition :=
                 d.ps5Activity_canResumeExpedition
               ps5Activity_availableShipLogCards :=
                 d.ps5Activity_availableShipLogCards
               didRunInitGammaSetting := d.didRunInitGammaSetting }) := by
  by_cases h7 : 7 < d.knownFrequencies.length
  · constructor
    · intro h
      exfalso
      simp [GameSave.from_json, h7, bind, Except.bind, throw, throwThe,
        MonadExceptOf.throw] at h
    · intro ⟨h1, _⟩
      omega
  · cases hs : loadSignals d.knownSignals GameSave.init.knownSignals with
    | error e =>
      constructor
      · intro h
        exfalso
        simp [GameSave.from_json, h7, hs, bind, Except.bind, throw, throwThe,
          MonadExceptOf.throw, pure, Except.pure] at h
      · intro ⟨_, hsig, _⟩
        exfalso
        have : loadSignals d.knownSignals GameSave.init.knownSignals =
            .ok (updAll GameSave.init.knownSignals d.knownSignals) :=
          (loadSignals_eq_ok _ _ _).mpr ⟨hsig, rfl⟩
        rw [hs] at this
        exact Except.noConfusion this
    | ok sigs =>
      obtain ⟨hsig, hres⟩ := (loadSignals_eq_ok _ _ _).mp hs
      cases hd : DeathType.ofInt d.lastDeathType with
      | none =>
        constructor
        · intro h
          exfalso
          simp [GameSave.from_json, h7, hs, hd, bind, Except.bind, throw,
            throwThe, MonadExceptOf.throw, pure, Except.pure] at h
        · intro ⟨_, _, dt, hdt, _⟩
          exact Option.noConfusion hdt
      | some dt =>
        have hmain : GameSave.from_json d = .ok
            { loopCount := d.loopCount
              knownFrequencies := d.knownFrequencies ++
                (GameSave.init.knownFrequencies.drop d.knownFrequencies.length)
              knownSignals := sigs
              dictConditions := persistent_conditions.map
                (fun c => (c, Tristate.mk (lookupA c d.dictConditions).join))
              shipLogFactSaves :=
                upsAll GameSave.init.shipLogFactSaves d.shipLogFactSaves
              newlyRevealedFactIDs := d.newlyRevealedFactIDs
              lastDeathType := dt
              burnedMarshmallowEaten := d.burnedMarshmallowEaten
              fullTimeloops := d.fullTimeloops
              perfectMarshmallowsEaten := d.perfectMarshmallowsEaten
              warpedToTheEye := d.warpedToTheEye
              secondsRemainingOnWarp := d.secondsRemainingOnWarp
              loopCountOnParadox := d.loopCountOnParadox
              shownPopups := popupsNorm d.shownPopups
              version := d.version
              ps5Activity_canResumeExpedition :=
                d.ps5Activity_canResumeExpedition
              ps5Activity_availableShipLogCards :=
                d.ps5Activity_availableShipLogCards
              didRunInitGammaSetting := d.didRunInitGammaSetting } := by
          simp [GameSave.from_json, h7, hs, hd, bind, Except.bind, throw,
            throwThe, MonadExceptOf.throw, pure, Except.pure]
        rw [hmain]
        constructor
        · intro h
          have hm := (Except.ok.inj h).symm
          exact ⟨by omega, hsig, dt, rfl, by rw [hm, hres]⟩
        · intro ⟨_, _, dt2, hdt2, hm⟩
          have hdt3 : dt2 = dt := (Option.some.inj hdt2).symm
          subst hdt3
          rw [hm, hres]

theorem join_map_some {α : Type} (o : Option α) : (o.map some).join = o := by
  cases o <;> rfl

theorem init_freq_length : GameSave.init.knownFrequencies.length = 7 := rfl

theorem keysA_init_signals : keysA GameSave.init.knownSignals = signalCodes :=
  keysA_map_pair _ _

theorem keysA_init_facts : keysA GameSave.init.shipLogFactSaves = rumors :=
  keysA_map_pair _ _

/-- C2: for every accepted save document, serializing the loaded model yields
a document that loads back to the very same model, field for field. -/
theorem C2_round_trip (d : SaveData) (m : GameSave)
    (h : GameSave.from_json d = .ok m) :
    GameSave.from_json m.to_json_data = .ok m := by
  rw [from_json_eq_ok] at h
  obtain ⟨h7, hsig, dt, hdt, hm⟩ := h
  subst hm
  simp only [GameSave.to_json_data]
  rw [from_json_eq_ok]
  have hlen7 : (d.knownFrequencies ++
      (GameSave.init.knownFrequencies.drop d.knownFrequencies.length)).length
      = 7 := by
    rw [List.length_append, List.length_drop, init_freq_length]
    omega
  have hkeyS : keysA (updAll GameSave.init.knownSignals d.knownSignals) =
      signalCodes := by
    rw [keysA_updAll, keysA_init_signals]
  have hf : (List.range 7).map
      (fun i => (d.knownFrequencies ++
        (GameSave.init.knownFrequencies.drop d.knownFrequencies.length)).getD
          i false) =
      d.knownFrequencies ++
        (GameSave.init.knownFrequencies.drop d.knownFrequencies.length) :=
    map_range_getD _ 7 hlen7
  refine ⟨?_, ?_, dt, ?_, ?_⟩
  · rw [List.length_map, List.length_range]
  · intro kv hkv
    have hmem := mem_keysA_of_mem hkv
    rw [hkeyS] at hmem
    exact hmem
  · exact DeathType.ofInt_val dt
  · rw [GameSave.mk.injEq]
    refine ⟨rfl, ?_, ?_, ?_, ?_, rfl, rfl, rfl, rfl, rfl, rfl, rfl, rfl, ?_,
      rfl, rfl, rfl, rfl⟩
    · rw [hf, hlen7]
      rw [show GameSave.init.knownFrequencies.drop 7 = [] from rfl,
        List.append_nil]
    · refine (updAll_self _ _ ?_ ?_).symm
      · rw [hkeyS]
        decide
      · rw [hkeyS, keysA_init_signals]
    · refine List.map_congr_left ?_
      intro c hc
      have hTc : lookupA c (persistent_conditions.map
          (fun c2 => (c2, Tristate.mk (lookupA c2 d.dictConditions).join))) =
          some (Tristate.mk (lookupA c d.dictConditions).join) :=
        lookupA_map_pair _ _ c hc
      have hser := lookupA_condSer _ c _ ?_ hTc
      · rw [hser]
        show (c, Tristate.mk (lookupA c d.dictConditions).join) =
          (c, Tristate.mk
            (((lookupA c d.dictConditions).join.map some).join))
        rw [join_map_some]
      · rw [keysA_map_pair]
        decide
    · refine (upsAll_self _ _ ?_ ?_).symm
      · refine nodup_keysA_upsAll _ _ ?_
        rw [keysA_init_facts]
        decide
      · obtain ⟨E, hE⟩ := keysA_upsAll_prefix GameSave.init.shipLogFactSaves
          d.shipLogFactSaves
        rw [hE]
        have hlen : GameSave.init.shipLogFactSaves.length =
            (keysA GameSave.init.shipLogFactSaves).length :=
          (List.length_map _ _).symm
        rw [hlen, List.take_left]
    · exact (popupsNorm_of_nonneg (popupsNorm_nonneg d.shownPopups)).symm

/-- C2 witness: the default document round-trips to the default loaded model. -/
theorem C2_round_trip_witness :
    GameSave.from_json baseDoc = .ok defaultLoaded ∧
    GameSave.from_json defaultLoaded.to_json_data = .ok defaultLoaded :=
  ⟨by decide, C2_round_trip baseDoc defaultLoaded (by decide)⟩

/-- C7: when a defined condition name is absent from the dictConditions of a
document the loader accepts, the loaded model maps that condition to unknown,
and serialization omits the key again (absent stays absent across a
round-trip), while the other fixed-key maps are emitted in full: the frequency
array carries all 7 entries, the emitted signal keys are exactly the defined
signal codes, and the log-fact map is emitted whole. -/
theorem C7_missing_condition_unknown_and_omitted (d : SaveData) (m : GameSave)
    (c : String) (hc : c ∈ persistent_conditions)
    (habs : lookupA c d.dictConditions = none)
    (hm : GameSave.from_json d = .ok m) :
    lookupA c m.dictConditions = some (Tristate.mk none) ∧
    lookupA c m.to_json_data.dictConditions = none ∧
    m.to_json_data.knownFrequencies.length = 7 ∧
    keysA m.to_json_data.knownSignals = signalCodes ∧
    m.to_json_data.shipLogFactSaves = m.shipLogFactSaves := by
  rw [from_json_eq_ok] at hm
  obtain ⟨h7, hsig, dt, hdt, hmm⟩ := hm
  subst hmm
  simp only [GameSave.to_json_data]
  have hTc : lookupA c (persistent_conditions.map
      (fun c2 => (c2, Tristate.mk (lookupA c2 d.dictConditions).join))) =
      some (Tristate.mk (lookupA c d.dictConditions).join) :=
    lookupA_map_pair _ _ c hc
  rw [habs] at hTc
  refine ⟨hTc, ?_, ?_, ?_, trivial⟩
  · have hser := lookupA_condSer _ c _ ?_ hTc
    · rw [hser]
      rfl
    · rw [keysA_map_pair]
      decide
  · rw [List.length_map, List.length_range]
  · rw [keysA_updAll, keysA_init_signals]

/-- C7 witness: the default document (whose dictConditions object is empty)
loads COND_A as unknown and serializes it away again. -/
theorem C7_witness :
    "COND_A" ∈ persistent_conditions ∧
    lookupA "COND_A" baseDoc.dictConditions = none ∧
    GameSave.from_json baseDoc = .ok defaultLoaded ∧
    (lookupA "COND_A" defaultLoaded.dictConditions = some (Tristate.mk none) ∧
     lookupA "COND_A" defaultLoaded.to_json_data.dictConditions = none ∧
     defaultLoaded.to_json_data.knownFrequencies.length = 7 ∧
     keysA defaultLoaded.to_json_data.knownSignals = signalCodes ∧
     defaultLoaded.to_json_data.shipLogFactSaves =
       defaultLoaded.shipLogFactSaves) :=
  ⟨by decide, by decide, by decide,
    C7_missing_condition_unknown_and_omitted baseDoc defaultLoaded "COND_A"
      (by decide) (by decide) (by decide)⟩

theorem exists_prop_map_iff (l : List ShipLogFactSave)
    (ψ : ShipLogFactSave → ShipLogFactSave) (P : ShipLogFactSave → Prop)
    (hψ : ∀ f, P (ψ f) ↔ P f) :
    (∃ f ∈ l.map ψ, P f) ↔ ∃ f ∈ l, P f := by
  constructor
  · rintro ⟨g, hg, hP⟩
    obtain ⟨f, hf, rfl⟩ := List.mem_map.mp hg
    exact ⟨f, hf, (hψ f).mp hP⟩
  · rintro ⟨f, hf, hP⟩
    exact ⟨ψ f, List.mem_map_of_mem ψ hf, (hψ f).mpr hP⟩

theorem exists_prop_perm_iff {l1 l2 : List ShipLogFactSave} (h : l1.Perm l2)
    (P : ShipLogFactSave → Prop) :
    (∃ f ∈ l1, P f) ↔ ∃ f ∈ l2, P f := by
  constructor
  · rintro ⟨f, hf, hP⟩
    exact ⟨f, h.mem_iff.mp hf, hP⟩
  · rintro ⟨f, hf, hP⟩
    exact ⟨f, h.mem_iff.mpr hf, hP⟩

theorem action_sort_perm (mode : SortMode) (l : List ShipLogFactSave) :
    (action_sort mode l).Perm l := by
  cases mode with
  | reveal => exact (List.reverse_perm _).trans (List.perm_insertionSort _ _)
  | alpha => exact (List.reverse_perm _).trans (List.perm_insertionSort _ _)

theorem submit_edit_facts_pres (ts : TreeState) (selId : String) (newv : Int)
    (P : ShipLogFactSave → Prop)
    (hP : ∀ f c, P { f with revealOrder := c } ↔ P f) :
    ((∃ f ∈ (submit_edit ts selId newv).facts, P f) ↔ ∃ f ∈ ts.facts, P f) := by
  cases hfind : ts.facts.find? (fun f => f.id == selId) with
  | none =>
    rw [submit_edit]
    rw [hfind]
  | some sel =>
    rw [submit_edit]
    rw [hfind]
    refine (exists_prop_perm_iff (action_sort_perm _ _) P).trans ?_
    refine (exists_prop_map_iff _ _ P ?_).trans (exists_prop_map_iff _ _ P ?_)
    · intro f
      by_cases h : (f.id == selId) = true
      · rw [if_pos h]
        exact hP f _
      · rw [if_neg h]
    · intro f
      cases hl : lookupA f.id (passAux sel.revealOrder newv
          (List.insertionSort rAsc ts.facts) 0) with
      | none => exact Iff.rfl
      | some c => exact hP f c

theorem submit_edit_nrl (ts : TreeState) (selId : String) (newv : Int) :
    (submit_edit ts selId newv).newlyRevealedFactIDs =
      ts.newlyRevealedFactIDs := by
  cases hfind : ts.facts.find? (fun f => f.id == selId) with
  | none => rw [submit_edit, hfind]
  | some sel => rw [submit_edit, hfind]

theorem exists_flag_setFlag_ne (l : List ShipLogFactSave) (selId i : String)
    (b : Bool) (hne : i ≠ selId) :
    ((∃ f ∈ setFlag l selId b, f.id = i ∧ f.newlyRevealed) ↔
      ∃ f ∈ l, f.id = i ∧ f.newlyRevealed) := by
  refine exists_prop_map_iff _ _ _ ?_
  intro f
  by_cases h : (f.id == selId) = true
  · rw [if_pos h]
    have hid : f.id = selId := by simpa using h
    constructor
    · rintro ⟨h1, _⟩
      exact absurd (h1 ▸ hid) hne
    · rintro ⟨h1, _⟩
      exact absurd (h1 ▸ hid) hne
  · rw [if_neg h]

theorem exists_flag_setFlag_self (l : List ShipLogFactSave) (selId : String)
    (b : Bool) :
    ((∃ f ∈ setFlag l selId b, f.id = selId ∧ f.newlyRevealed) ↔
      (b = true ∧ ∃ f ∈ l, f.id = selId)) := by
  constructor
  · rintro ⟨g, hg, hid, hfl⟩
    obtain ⟨f, hf, rfl⟩ := List.mem_map.mp hg
    by_cases h : (f.id == selId) = true
    · rw [if_pos h] at hfl
      exact ⟨hfl, f, hf, by simpa using h⟩
    · rw [if_neg h] at hfl hid
      exact absurd (by simpa using hid) (by simpa using h)
  · rintro ⟨hb, f, hf, hid⟩
    refine ⟨{ f with newlyRevealed := b }, ?_, hid, hb⟩
    have h : (f.id == selId) = true := by simpa using hid
    have : (if (f.id == selId) = true then { f with newlyRevealed := b }
        else f) = { f with newlyRevealed := b } := if_pos h
    exact this ▸ List.mem_map_of_mem _ hf

/-- C4 counterexample: the loader performs no consistency check between
`newlyRevealedFactIDs` and the records' flags; this document lists FACT_A as
newly revealed while no record has the flag set, it loads successfully, and
the resulting tree state violates the claimed invariant immediately after
load. -/
theorem C4_counterexample_load_inconsistent :
    GameSave.from_json { baseDoc with newlyRevealedFactIDs := ["FACT_A"] } =
      .ok { defaultLoaded with newlyRevealedFactIDs := ["FACT_A"] } ∧
    ¬ SetConsistent
        (treeOfSave { defaultLoaded with newlyRevealedFactIDs := ["FACT_A"] }) := by
  constructor
  · decide
  · intro h
    have h2 := (h "FACT_A").mp (List.mem_singleton.mpr rfl)
    have h3 : ¬ ∃ f ∈ (treeOfSave
        { defaultLoaded with newlyRevealedFactIDs := ["FACT_A"] }).facts,
        f.id = "FACT_A" ∧ f.newlyRevealed := by decide
    exact h3 h2

/-- C4 amended: the loader itself establishes no consistency between
`newlyRevealedFactIDs` and the flags (see the counterexample), but every
log-fact operation preserves set-level consistency: starting from any tree
state whose records carry pairwise-distinct id fields and in which the id
list holds exactly the ids of the flagged facts, each of the three
operations (read toggle, reveal toggle, newly-revealed toggle) leaves the
state with the id list again holding exactly the flagged ids. The
duplicate-free-id hypothesis scopes the theorem to the states on which the
by-id embedding of node selection coincides with the source, which mutates
the record object of the one selected tree node; the loader does not check
a record's id field against its dict key, so duplicate-id states are
loadable, and on them a `new_reveal` toggle clears one record's flag while
filtering the shared id out of the list entirely, breaking consistency —
they are excluded, not covered. -/
theorem C4_amended_ops_preserve_consistency (ts : TreeState) (selId : String)
    (p : LogStateParam)
    (_hnd : (ts.facts.map (fun f => f.id)).Nodup)
    (hc : SetConsistent ts) :
    SetConsistent (action_set_log_state ts selId p) := by
  cases hfind : ts.facts.find? (fun f => f.id == selId) with
  | none =>
    intro i
    simp only [action_set_log_state, hfind]
    exact hc i
  | some sel =>
    have hselmem : sel ∈ ts.facts := List.mem_of_find?_eq_some hfind
    have hselid : sel.id = selId := by
      have := List.find?_some hfind
      simpa using this
    have hid_pres : ∀ i : String,
        ((∃ f ∈ (submit_edit ts selId (pyMax (ts.facts.map
            (fun f => f.revealOrder + 1)))).facts, f.id = i) ↔
          ∃ f ∈ ts.facts, f.id = i) :=
      fun i => submit_edit_facts_pres ts selId _ (fun f => f.id = i)
        (fun f c => Iff.rfl)
    cases p with
    | read =>
      intro i
      simp only [action_set_log_state, hfind]
      show i ∈ ts.newlyRevealedFactIDs ↔ _
      rw [hc i]
      exact (exists_prop_map_iff _ _ _ (fun f => by
        by_cases h : (f.id == selId) = true
        · rw [if_pos h]
        · rw [if_neg h])).symm
    | reveal =>
      simp only [action_set_log_state, hfind]
      by_cases hrev : sel.revealOrder > -1
      · rw [if_pos hrev]
        intro i
        show i ∈ (submit_edit ts selId (-1)).newlyRevealedFactIDs.filter
          (fun x => !(x == sel.id)) ↔ _
        rw [submit_edit_nrl]
        by_cases hi : i = selId
        · subst hi
          constructor
          · intro hmem
            have := (List.mem_filter.mp hmem).2
            rw [hselid] at this
            simp at this
          · intro hex
            have := (exists_flag_setFlag_self _ _ _).mp hex
            exact absurd this.1 (by simp)
        · rw [List.mem_filter]
          have hiff := (exists_flag_setFlag_ne _ selId i false hi).trans
            (submit_edit_facts_pres ts selId (-1)
              (fun f => f.id = i ∧ f.newlyRevealed)
              (fun f c => Iff.rfl))
          rw [hiff, ← hc i]
          constructor
          · intro h
            exact h.1
          · intro h
            refine ⟨h, ?_⟩
            rw [hselid]
            simpa using hi
      · rw [if_neg hrev]
        intro i
        show i ∈ (submit_edit ts selId _).newlyRevealedFactIDs ++ [sel.id] ↔ _
        rw [submit_edit_nrl, List.mem_append]
        by_cases hi : i = selId
        · subst hi
          constructor
          · intro _
            refine (exists_flag_setFlag_self _ _ _).mpr ⟨rfl, ?_⟩
            exact (hid_pres _).mpr ⟨sel, hselmem, hselid⟩
          · intro _
            right
            rw [hselid]
            exact List.mem_singleton.mpr rfl
        · have hiff := (exists_flag_setFlag_ne _ selId i true hi).trans
            (submit_edit_facts_pres ts selId
              (pyMax (ts.facts.map (fun f => f.revealOrder + 1)))
              (fun f => f.id = i ∧ f.newlyRevealed)
              (fun f c => Iff.rfl))
          rw [hiff, ← hc i]
          constructor
          · intro h
            rcases h with h | h
            · exact h
            · exfalso
              rw [hselid] at h
              exact hi (List.mem_singleton.mp h)
          · intro h
            exact Or.inl h
    | new_reveal =>
      simp only [action_set_log_state, hfind]
      intro i
      by_cases hb : (!sel.newlyRevealed) = true
      · rw [if_pos hb]
        by_cases hi : i = selId
        · subst hi
          constructor
          · intro _
            exact (exists_flag_setFlag_self _ _ _).mpr
              ⟨hb, sel, hselmem, hselid⟩
          · intro _
            rw [List.mem_append, hselid]
            exact Or.inr (List.mem_singleton.mpr rfl)
        · rw [exists_flag_setFlag_ne _ selId i _ hi, ← hc i, List.mem_append]
          constructor
          · intro h
            rcases h with h | h
            · exact h
            · exact absurd (hselid ▸ List.mem_singleton.mp h) hi
          · intro h
            exact Or.inl h
      · rw [if_neg hb]
        by_cases hi : i = selId
        · subst hi
          constructor
          · intro hmem
            have h2 := (List.mem_filter.mp hmem).2
            rw [hselid] at h2
            simp at h2
          · intro hex
            have h2 := (exists_flag_setFlag_self _ _ _).mp hex
            exact absurd h2.1 hb
        · rw [exists_flag_setFlag_ne _ selId i _ hi, ← hc i, List.mem_filter]
          constructor
          · intro h
            exact h.1
          · intro h
            refine ⟨h, ?_⟩
            rw [hselid]
            simpa using hi

/-- C4 witness: a concrete consistent single-fact state (trivially
duplicate-free) stays consistent through a reveal toggle. -/
theorem C4_amended_witness :
    (([⟨"FACT_A", -1, false, false⟩] : List ShipLogFactSave).map
      (fun f => f.id)).Nodup ∧
    SetConsistent (⟨[⟨"FACT_A", -1, false, false⟩], [], .reveal⟩ : TreeState) ∧
    SetConsistent (action_set_log_state
      ⟨[⟨"FACT_A", -1, false, false⟩], [], .reveal⟩ "FACT_A" .reveal) :=
  have hc : SetConsistent
      (⟨[⟨"FACT_A", -1, false, false⟩], [], .reveal⟩ : TreeState) := by
    intro i
    constructor
    · intro h
      exact absurd h (List.not_mem_nil i)
    · rintro ⟨f, hf, _, hfl⟩
      rcases List.mem_singleton.mp hf with rfl
      simp at hfl
  ⟨by decide, hc,
    C4_amended_ops_preserve_consistency _ "FACT_A" .reveal (by decide) hc⟩

theorem foldl_max_ge_init (t : List Int) (x : Int) : x ≤ t.foldl max x := by
  induction t generalizing x with
  | nil => exact le_refl x
  | cons a s ih => exact le_trans (le_max_left x a) (ih (max x a))

theorem foldl_max_ge_mem (t : List Int) (x y : Int) (hy : y ∈ t) :
    y ≤ t.foldl max x := by
  induction t generalizing x with
  | nil => exact absurd hy (List.not_mem_nil y)
  | cons a s ih =>
    rcases List.mem_cons.mp hy with rfl | hy2
    · exact le_trans (le_max_right x y) (foldl_max_ge_init s (max x y))
    · exact ih (max x a) hy2

theorem le_pyMax (l : List Int) (y : Int) (hy : y ∈ l) : y ≤ pyMax l := by
  cases l with
  | nil => exact absurd hy (List.not_mem_nil y)
  | cons x t =>
    rcases List.mem_cons.mp hy with rfl | hy2
    · exact foldl_max_ge_init t y
    · exact foldl_max_ge_mem t x y hy2

theorem passAux_eq_seqAssign (oldv newv : Int) (hnv : newv < 0)
    (l : List ShipLogFactSave) (c : Int) (hc : 0 ≤ c) :
    passAux oldv newv l c = seqAssign c (l.filter (passKeep oldv)) := by
  induction l generalizing c with
  | nil => rfl
  | cons f t ih =>
    by_cases h1 : f.revealOrder = -1
    · rw [passAux, if_pos h1,
        List.filter_cons_of_neg (by simp [passKeep, h1]), ih c hc]
    · by_cases h2 : f.revealOrder = oldv
      · rw [passAux, if_neg h1, if_pos h2,
          List.filter_cons_of_neg (by simp [passKeep, h1, h2]), ih c hc]
      · have hcne : ¬ c = newv := by omega
        rw [passAux, if_neg h1, if_neg h2,
          List.filter_cons_of_pos (by simp [passKeep, h1, h2])]
        show (f.id, if c = newv then c + 1 else c) ::
          passAux oldv newv t ((if c = newv then c + 1 else c) + 1) = _
        rw [if_neg hcne, seqAssign, ih (c + 1) (by omega)]

theorem lookupA_seqAssign_none (F : List ShipLogFactSave) (i : String)
    (hni : i ∉ F.map (fun f => f.id)) (c : Int) :
    lookupA i (seqAssign c F) = none := by
  induction F generalizing c with
  | nil => rfl
  | cons f t ih =>
    rw [List.map_cons, List.mem_cons] at hni
    push_neg at hni
    rw [seqAssign, lookupA, if_neg (fun h => hni.1 h.symm)]
    exact ih hni.2 _

theorem lookupA_seqAssign (F : List ShipLogFactSave)
    (hnd : (F.map (fun f => f.id)).Nodup)
    (hsorted : F.Pairwise (fun a b => a.revealOrder < b.revealOrder))
    (f : ShipLogFactSave) (hf : f ∈ F) (c : Int) :
    lookupA f.id (seqAssign c F) =
      some (c + (F.countP (fun g => decide (g.revealOrder < f.revealOrder)) :
        Int)) := by
  induction F generalizing c with
  | nil => exact absurd hf (List.not_mem_nil f)
  | cons a t ih =>
    rw [List.map_cons, List.nodup_cons] at hnd
    rcases List.mem_cons.mp hf with rfl | hft
    · rw [seqAssign, lookupA, if_pos rfl]
      have hz : (f :: t).countP
          (fun g => decide (g.revealOrder < f.revealOrder)) = 0 := by
        rw [List.countP_eq_zero]
        intro g hg
        rcases List.mem_cons.mp hg with rfl | hgt
        · simp
        · have := (List.pairwise_cons.mp hsorted).1 g hgt
          simp
          omega
      rw [hz]
      norm_num
    · have hne : ¬ a.id = f.id := by
        intro heq
        exact hnd.1 (heq ▸ List.mem_map_of_mem (fun g => g.id) hft)
      rw [seqAssign, lookupA, if_neg hne,
        ih hnd.2 (List.pairwise_cons.mp hsorted).2 hft (c + 1)]
      have hlt : a.revealOrder < f.revealOrder :=
        (List.pairwise_cons.mp hsorted).1 f hft
      rw [List.countP_cons]
      rw [if_pos (by simpa using hlt)]
      congr 1
      push_cast
      ring

theorem map_order_filter_pred (p : Int → Bool) (l : List ShipLogFactSave) :
    ((l.filter (fun f => p f.revealOrder)).map (fun f => f.revealOrder)) =
      (l.map (fun f => f.revealOrder)).filter p := by
  induction l with
  | cons f t ih =>
    rw [List.filter_cons]
    by_cases h : p f.revealOrder = true
    · rw [if_pos h, List.map_cons, List.map_cons, List.filter_cons, if_pos h,
        ih]
    · rw [if_neg h, List.map_cons, List.filter_cons, if_neg h, ih]
  | nil => rfl

theorem countP_rangeMap_lt_ne (k : Nat) (p o : Int) (hp : 0 ≤ p) :
    ((((List.range k).map Int.ofNat).countP
      (fun q => decide (q < p) && !(q == o))) : Int) =
      min p (k : Int) -
        (if 0 ≤ o ∧ o < min p (k : Int) ∧ o ≠ p then 1 else 0) := by
  induction k with
  | zero =>
    rw [List.range_zero, List.map_nil, List.countP_nil]
    simp only [min_def]
    split_ifs <;> push_cast at * <;> omega
  | succ n ih =>
    rw [List.range_succ, List.map_append, List.countP_append, List.map_cons,
      List.map_nil, List.countP_cons, List.countP_nil]
    push_cast
    rw [ih]
    have hcast : Int.ofNat n = (n : Int) := rfl
    simp only [hcast, Bool.and_eq_true, decide_eq_true_eq, Bool.not_eq_true',
      beq_eq_false_iff_ne, min_def]
    split_ifs <;> push_cast at * <;> omega

theorem countP_order_map (F : List ShipLogFactSave) (pp : Int → Bool) :
    F.countP (fun g => pp g.revealOrder) =
      (F.map (fun g => g.revealOrder)).countP pp := by
  induction F with
  | nil => rfl
  | cons a t ih =>
    rw [List.map_cons, List.countP_cons, List.countP_cons, ih]

theorem mem_revealedOrders {l : List ShipLogFactSave} {f : ShipLogFactSave}
    (hf : f ∈ l) (hrev : 0 ≤ f.revealOrder) :
    f.revealOrder ∈ revealedOrders l := by
  rw [revealedOrders, List.mem_filter]
  exact ⟨List.mem_map_of_mem _ hf, by simpa using hrev⟩

theorem rangeMap_nodup (k : Nat) : ((List.range k).map Int.ofNat).Nodup :=
  (List.nodup_range k).map (fun a b h => Int.ofNat.inj h)

theorem mem_rangeMap_lt {k : Nat} {p : Int}
    (hp : p ∈ (List.range k).map Int.ofNat) : p < (k : Int) := by
  obtain ⟨n, hn, rfl⟩ := List.mem_map.mp hp
  have h1 := List.mem_range.mp hn
  have h2 : Int.ofNat n = (n : Int) := rfl
  rw [h2]
  exact_mod_cast h1

theorem revealedOrders_eq_filter_ne (l : List ShipLogFactSave)
    (hwf : WellFormedFacts l) :
    (l.map (fun f => f.revealOrder)).filter (fun o => !(o == -1)) =
      revealedOrders l := by
  rw [revealedOrders]
  refine List.filter_congr ?_
  intro o ho
  obtain ⟨f, hf, rfl⟩ := List.mem_map.mp ho
  have := hwf f hf
  by_cases h : f.revealOrder = -1
  · rw [h]
    simp
  · have h0 : 0 ≤ f.revealOrder := by omega
    simp [h, h0]

/-- The reveal-toggle edit on a revealed fact rewrites the children exactly
to: the selected fact at order `-1`, every other fact with a larger order
decremented by one, and everything else untouched, followed by the final
display re-sort. -/
theorem submit_edit_remove_eq (ts : TreeState) (selId : String)
    (sel : ShipLogFactSave)
    (hnd : (ts.facts.map (fun f => f.id)).Nodup)
    (hwf : WellFormedFacts ts.facts)
    (hd : DenseFacts ts.facts)
    (hfind : ts.facts.find? (fun f => f.id == selId) = some sel)
    (hrev : 0 ≤ sel.revealOrder) :
    (submit_edit ts selId (-1)).facts =
      action_sort ts.sorted_by (ts.facts.map (fun f =>
        if f.id = selId then { f with revealOrder := -1 }
        else if sel.revealOrder < f.revealOrder then
          { f with revealOrder := f.revealOrder - 1 }
        else f)) := by
  have hselmem : sel ∈ ts.facts := List.mem_of_find?_eq_some hfind
  have hselid : sel.id = selId := by simpa using List.find?_some hfind
  have hidinj : ∀ x ∈ ts.facts, ∀ y ∈ ts.facts, x.id = y.id → x = y :=
    List.inj_on_of_nodup_map hnd
  have hperm : (List.insertionSort rAsc ts.facts).Perm ts.facts :=
    List.perm_insertionSort _ _
  have hndsnap : ((List.insertionSort rAsc ts.facts).map
      (fun f => f.id)).Nodup :=
    ((hperm.map _).nodup_iff).mpr hnd
  -- the kept children of the renumbering pass
  have hassigns : passAux sel.revealOrder (-1)
      (List.insertionSort rAsc ts.facts) 0 =
      seqAssign 0 ((List.insertionSort rAsc ts.facts).filter
        (passKeep sel.revealOrder)) :=
    passAux_eq_seqAssign _ _ (by omega) _ 0 (by omega)
  set k := (revealedOrders ts.facts).length with hk
  -- multiset of orders of the kept children
  have hForders : (((List.insertionSort rAsc ts.facts).filter
      (passKeep sel.revealOrder)).map (fun f => f.revealOrder)).Perm
      (((List.range k).map Int.ofNat).filter
        (fun o => !(o == sel.revealOrder))) := by
    have h1 : ((List.insertionSort rAsc ts.facts).filter
        (passKeep sel.revealOrder)).map (fun f => f.revealOrder) =
        ((List.insertionSort rAsc ts.facts).map
          (fun f => f.revealOrder)).filter
          (fun o => !(o == -1) && !(o == sel.revealOrder)) :=
      map_order_filter_pred (fun o => !(o == -1) && !(o == sel.revealOrder))
        (List.insertionSort rAsc ts.facts)
    have h2 : (((List.insertionSort rAsc ts.facts).map
        (fun f => f.revealOrder)).filter
        (fun o => !(o == -1) && !(o == sel.revealOrder))).Perm
        ((ts.facts.map (fun f => f.revealOrder)).filter
          (fun o => !(o == -1) && !(o == sel.revealOrder))) :=
      (hperm.map _).filter _
    have h3 : (ts.facts.map (fun f => f.revealOrder)).filter
        (fun o => !(o == -1) && !(o == sel.revealOrder)) =
        ((ts.facts.map (fun f => f.revealOrder)).filter
          (fun o => !(o == -1))).filter (fun o => !(o == sel.revealOrder)) := by
      rw [List.filter_filter]
      refine List.filter_congr ?_
      intro o _
      rw [Bool.and_comm]
    have h4 : (((ts.facts.map (fun f => f.revealOrder)).filter
        (fun o => !(o == -1))).filter
        (fun o => !(o == sel.revealOrder))).Perm
        (((List.range k).map Int.ofNat).filter
          (fun o => !(o == sel.revealOrder))) := by
      rw [revealedOrders_eq_filter_ne ts.facts hwf]
      exact hd.filter _
    rw [h1]
    refine h2.trans ?_
    rw [h3]
    exact h4
  have hndF : ((((List.insertionSort rAsc ts.facts).filter
      (passKeep sel.revealOrder)).map (fun f => f.revealOrder))).Nodup :=
    (hForders.nodup_iff).mpr ((rangeMap_nodup k).filter _)
  have hFstrict : (((List.insertionSort rAsc ts.facts).filter
      (passKeep sel.revealOrder))).Pairwise
      (fun a b => a.revealOrder < b.revealOrder) := by
    have hFpair : (((List.insertionSort rAsc ts.facts).filter
        (passKeep sel.revealOrder))).Pairwise rAsc :=
      (List.sorted_insertionSort rAsc ts.facts).filter _
    have hFne : (((List.insertionSort rAsc ts.facts).filter
        (passKeep sel.revealOrder))).Pairwise
        (fun a b => a.revealOrder ≠ b.revealOrder) :=
      List.pairwise_map.mp hndF
    exact (hFpair.and hFne).imp (fun hab => by
      rcases hab with ⟨hle, hne⟩
      unfold rAsc at hle
      omega)
  have hndFid : ((((List.insertionSort rAsc ts.facts).filter
      (passKeep sel.revealOrder))).map (fun f => f.id)).Nodup :=
    hndsnap.sublist ((List.filter_sublist _).map _)
  -- the selected fact is not among the kept children
  have hselnot : sel.id ∉ (((List.insertionSort rAsc ts.facts).filter
      (passKeep sel.revealOrder))).map (fun f => f.id) := by
    intro hmem
    obtain ⟨g, hg, hgid⟩ := List.mem_map.mp hmem
    rw [List.mem_filter] at hg
    have hgmem : g ∈ ts.facts := hperm.mem_iff.mp hg.1
    have : g = sel := hidinj g hgmem sel hselmem hgid
    subst this
    rw [passKeep] at hg
    simp at hg
  have hlrnd : ((ts.facts.filter
      (fun g => decide (0 ≤ g.revealOrder))).map
      (fun g => g.revealOrder)).Nodup := by
    have he := map_order_filter_pred (fun o => decide (0 ≤ o)) ts.facts
    rw [he]
    exact (hd.nodup_iff).mpr (rangeMap_nodup k)
  have hinj2 := List.inj_on_of_nodup_map hlrnd
  simp only [submit_edit, hfind]
  refine congrArg (action_sort ts.sorted_by) ?_
  rw [List.map_map]
  refine List.map_congr_left ?_
  intro f hf
  simp only [Function.comp_apply]
  rw [hassigns]
  by_cases hfid : f.id = selId
  · have hfsel : f = sel :=
      hidinj f hf sel hselmem (hfid.trans hselid.symm)
    subst hfsel
    have hnone : lookupA f.id (seqAssign 0
        ((List.insertionSort rAsc ts.facts).filter
          (passKeep f.revealOrder))) = none :=
      lookupA_seqAssign_none _ _ hselnot 0
    have hmem1 : f.revealOrder + 1 ∈ ((ts.facts.map (fun f2 =>
        match lookupA f2.id (seqAssign 0
          ((List.insertionSort rAsc ts.facts).filter
            (passKeep f.revealOrder))) with
        | some c => { f2 with revealOrder := c }
        | none => f2)).map (fun g => g.revealOrder + 1)) := by
      refine List.mem_map.mpr ⟨_, List.mem_map.mpr ⟨f, hf, rfl⟩, ?_⟩
      rw [hnone]
    have hle : (-1 : Int) ≤ pyMax ((ts.facts.map (fun f2 =>
        match lookupA f2.id (seqAssign 0
          ((List.insertionSort rAsc ts.facts).filter
            (passKeep f.revealOrder))) with
        | some c => { f2 with revealOrder := c }
        | none => f2)).map (fun g => g.revealOrder + 1)) :=
      le_trans (by omega) (le_pyMax _ _ hmem1)
    simp only [hnone]
    rw [if_pos (show (f.id == selId) = true by simp [hfid]), if_pos hfid]
    rw [min_eq_left hle]
  · obtain ⟨fid, fo, frd, fnw⟩ := f
    simp only at hfid ⊢
    by_cases ho : fo = -1
    · subst ho
      have hnone2 : lookupA fid (seqAssign 0
          ((List.insertionSort rAsc ts.facts).filter
            (passKeep sel.revealOrder))) = none := by
        refine lookupA_seqAssign_none _ _ ?_ 0
        intro hmem
        obtain ⟨g, hg, hgid⟩ := List.mem_map.mp hmem
        rw [List.mem_filter] at hg
        have hgmem : g ∈ ts.facts := hperm.mem_iff.mp hg.1
        have hgf : g = ⟨fid, -1, frd, fnw⟩ := hidinj g hgmem _ hf hgid
        subst hgf
        rw [passKeep] at hg
        simp at hg
      simp only [hnone2]
      rw [if_neg (show ¬ ((⟨fid, -1, frd, fnw⟩ :
          ShipLogFactSave).id == selId) = true by simp [hfid])]
      rw [if_neg hfid, if_neg (by omega : ¬ sel.revealOrder < (-1 : Int))]
    · have hp0 : (0 : Int) ≤ fo := by
        have := hwf _ hf
        simp at this
        omega
      have hpo : fo ≠ sel.revealOrder := by
        intro heq
        have hfrev : (⟨fid, fo, frd, fnw⟩ : ShipLogFactSave) ∈
            ts.facts.filter (fun g => decide (0 ≤ g.revealOrder)) :=
          List.mem_filter.mpr ⟨hf, by simpa using hp0⟩
        have hselrev : sel ∈
            ts.facts.filter (fun g => decide (0 ≤ g.revealOrder)) :=
          List.mem_filter.mpr ⟨hselmem, by simpa using hrev⟩
        have := hinj2 hfrev hselrev (by simpa using heq)
        rw [← this] at hselid
        exact hfid hselid
      have hfF : (⟨fid, fo, frd, fnw⟩ : ShipLogFactSave) ∈
          (List.insertionSort rAsc ts.facts).filter
            (passKeep sel.revealOrder) := by
        refine List.mem_filter.mpr ⟨hperm.mem_iff.mpr hf, ?_⟩
        rw [passKeep]
        simp [ho, hpo]
      have hsome := lookupA_seqAssign _ hndFid hFstrict _ hfF 0
      have hpk : fo < (k : Int) :=
        mem_rangeMap_lt (hd.mem_iff.mp (mem_revealedOrders hf hp0))
      have hok : sel.revealOrder < (k : Int) :=
        mem_rangeMap_lt (hd.mem_iff.mp (mem_revealedOrders hselmem hrev))
      have hcount : ((((List.insertionSort rAsc ts.facts).filter
          (passKeep sel.revealOrder)).countP
          (fun g => decide (g.revealOrder <
            (⟨fid, fo, frd, fnw⟩ : ShipLogFactSave).revealOrder))) : Int) =
          if sel.revealOrder < fo then fo - 1 else fo := by
        have e1 : (((List.insertionSort rAsc ts.facts).filter
            (passKeep sel.revealOrder)).countP
            (fun g => decide (g.revealOrder <
              (⟨fid, fo, frd, fnw⟩ : ShipLogFactSave).revealOrder))) =
            ((((List.insertionSort rAsc ts.facts).filter
              (passKeep sel.revealOrder)).map
              (fun g => g.revealOrder)).countP
              (fun q => decide (q < fo))) :=
          countP_order_map _ (fun q => decide (q < fo))
        rw [e1, hForders.countP_eq, List.countP_filter,
          countP_rangeMap_lt_ne k fo sel.revealOrder hp0]
        simp only [min_def]
        split_ifs <;> omega
      simp only [hsome]
      rw [hcount]
      simp only [zero_add]
      simp [hfid]
      by_cases hop : sel.revealOrder < fo
      · rw [if_pos hop, if_pos hop]
      · rw [if_neg hop, if_neg hop]

/-- C3: on a model satisfying the density invariant, the remove branch of
`action_set_log_state` (reveal toggle on a revealed fact, which is
`setRevealOrder(fact, -1)` of the spec) produces children that are, up to
the final display re-sort, exactly the original records with the selected
fact set to order `-1` and its `newlyRevealed` flag cleared, every other
fact whose prior order was greater than the selected fact's old order
decremented by one, and lower-ordered facts untouched; the selected id is
removed from `newlyRevealedFactIDs`; and the decrement preserves the
relative order of all other revealed facts. -/
theorem C3_remove_compacts (ts : TreeState) (selId : String)
    (sel : ShipLogFactSave)
    (hnd : (ts.facts.map (fun f => f.id)).Nodup)
    (hwf : WellFormedFacts ts.facts)
    (hd : DenseFacts ts.facts)
    (hfind : ts.facts.find? (fun f => f.id == selId) = some sel)
    (hrev : 0 ≤ sel.revealOrder) :
    ((action_set_log_state ts selId .reveal).facts.Perm
      (ts.facts.map (fun f =>
        if f.id = selId then ⟨f.id, -1, f.read, false⟩
        else if sel.revealOrder < f.revealOrder then
          { f with revealOrder := f.revealOrder - 1 }
        else f)) ∧
     (action_set_log_state ts selId .reveal).newlyRevealedFactIDs =
       ts.newlyRevealedFactIDs.filter (fun x => !(x == selId))) ∧
    (∀ g1 ∈ ts.facts, ∀ g2 ∈ ts.facts, g1.id ≠ selId → g2.id ≠ selId →
      0 ≤ g1.revealOrder → g1.revealOrder < g2.revealOrder →
      (if sel.revealOrder < g1.revealOrder then g1.revealOrder - 1
       else g1.revealOrder) <
      (if sel.revealOrder < g2.revealOrder then g2.revealOrder - 1
       else g2.revealOrder)) := by
  have hselid : sel.id = selId := by simpa using List.find?_some hfind
  have hselmem : sel ∈ ts.facts := List.mem_of_find?_eq_some hfind
  have hgt : sel.revealOrder > -1 := by omega
  have hlrnd : ((ts.facts.filter
      (fun g => decide (0 ≤ g.revealOrder))).map
      (fun g => g.revealOrder)).Nodup := by
    have he := map_order_filter_pred (fun o => decide (0 ≤ o)) ts.facts
    rw [he]
    exact (hd.nodup_iff).mpr (rangeMap_nodup _)
  have hinj2 := List.inj_on_of_nodup_map hlrnd
  have hfacts : (action_set_log_state ts selId .reveal).facts =
      setFlag (submit_edit ts selId (-1)).facts selId false := by
    simp only [action_set_log_state, hfind]
    rw [if_pos hgt]
  have hnrl : (action_set_log_state ts selId .reveal).newlyRevealedFactIDs =
      (submit_edit ts selId (-1)).newlyRevealedFactIDs.filter
        (fun x => !(x == sel.id)) := by
    simp only [action_set_log_state, hfind]
    rw [if_pos hgt]
  refine ⟨⟨?_, ?_⟩, ?_⟩
  · rw [hfacts, submit_edit_remove_eq ts selId sel hnd hwf hd hfind hrev]
    have hp1 := (action_sort_perm ts.sorted_by (ts.facts.map (fun f =>
        if f.id = selId then { f with revealOrder := -1 }
        else if sel.revealOrder < f.revealOrder then
          { f with revealOrder := f.revealOrder - 1 }
        else f))).map (fun f =>
          if f.id == selId then { f with newlyRevealed := false } else f)
    rw [setFlag]
    refine hp1.trans ?_
    rw [List.map_map]
    refine List.Perm.of_eq (List.map_congr_left ?_)
    intro f hf
    obtain ⟨fid, fo, frd, fnw⟩ := f
    simp only [Function.comp_apply]
    by_cases hfid : fid = selId
    · simp [hfid]
    · by_cases hop : sel.revealOrder < fo
      · simp [hfid, hop]
      · simp [hfid, hop]
  · rw [hnrl, submit_edit_nrl, hselid]
  · intro g1 hg1 g2 hg2 hid1 hid2 h0 hlt
    have hne1 : g1.revealOrder ≠ sel.revealOrder := by
      intro heq
      have hg1f : g1 ∈ ts.facts.filter
          (fun g => decide (0 ≤ g.revealOrder)) :=
        List.mem_filter.mpr ⟨hg1, by simpa using h0⟩
      have hself : sel ∈ ts.facts.filter
          (fun g => decide (0 ≤ g.revealOrder)) :=
        List.mem_filter.mpr ⟨hselmem, by simpa using hrev⟩
      have hgs : g1 = sel := hinj2 hg1f hself (by simpa using heq)
      rw [hgs] at hid1
      exact hid1 hselid
    split_ifs <;> omega

/-- Witness for `C3_remove_compacts`: spec Scenario B. Facts `a:0, b:1, c:2`
(all read/flag clear); toggling reveal on `FACT_A` yields
`a:-1, b:0, c:1`. -/
theorem C3_remove_compacts_witness :
    (action_set_log_state
        ⟨[⟨"FACT_A", 0, false, false⟩, ⟨"FACT_B", 1, false, false⟩,
          ⟨"FACT_C", 2, false, false⟩], [], .reveal⟩
        "FACT_A" .reveal).facts.Perm
      [⟨"FACT_A", -1, false, false⟩, ⟨"FACT_B", 0, false, false⟩,
       ⟨"FACT_C", 1, false, false⟩] := by
  have h := C3_remove_compacts
      ⟨[⟨"FACT_A", 0, false, false⟩, ⟨"FACT_B", 1, false, false⟩,
        ⟨"FACT_C", 2, false, false⟩], [], .reveal⟩
      "FACT_A" ⟨"FACT_A", 0, false, false⟩
      (by decide)
      (by intro f hf; fin_cases hf <;> decide)
      (by decide) (by decide) (by decide)
  exact h.1.1.trans (by decide)

end OW



